import Mathlib

/-!
Verification development for the EzGM conditional-spectrum record selection
engine (`CS_master.py`).  The Python source is shallowly embedded: numpy
arrays of floats become `List ℝ`, numpy reductions become list folds, and
the float transcendentals become their `Real` counterparts.  Division by
zero follows Lean's total-division convention, and `Real.sqrt` of a
negative number is `0`, which coincides with the source's policy of
replacing `NaN` standard deviations by `0`.
-/

open Classical

namespace EzGM

/-- Arithmetic mean of a list of reals, `np.mean` (mean of empty = 0/0 = 0). -/
noncomputable def lmean (l : List ℝ) : ℝ := l.sum / l.length

/-- Population standard deviation of a list of reals, `np.std` (ddof = 0). -/
noncomputable def lstd (l : List ℝ) : ℝ :=
  Real.sqrt (lmean (l.map (fun x => (x - lmean l) ^ 2)))

/-- Column `t` of a row-major matrix (missing entries read as 0). -/
def col (rows : List (List ℝ)) (t : ℕ) : List ℝ := rows.map (fun r => r.getD t 0)

/-- `np.max` over a list (head-seeded fold; 0 for the empty list). -/
noncomputable def listMax : List ℝ → ℝ
  | [] => 0
  | x :: xs => xs.foldl max x

/-- Sum of the entries of a row at a list of column indices (numpy fancy indexing
followed by `np.sum`). -/
def sumAt (r : List ℝ) (idxs : List ℕ) : ℝ := (idxs.map (fun t => r.getD t 0)).sum

/-- Inter-period correlation model, transcribed from `Baker_Jayaram_2008`
(`CS_master.py` lines 1409-1435). -/
noncomputable def Baker_Jayaram_2008 (T1 T2 : ℝ) : ℝ :=
  let t_min := min T1 T2
  let t_max := max T1 T2
  let c1 := 1 - Real.cos (Real.pi / 2 - Real.log (t_max / max t_min 0.109) * 0.366)
  let c2 := if t_max < 0.2 then
      1 - 0.105 * (1 - 1 / (1 + Real.exp (100 * t_max - 5))) * (t_max - t_min) / (t_max - 0.0099)
    else 0
  let c3 := if t_max < 0.109 then c2 else c1
  let c4 := c1 + 0.5 * (Real.sqrt c3 - c3) * (1 + Real.cos (Real.pi * t_min / 0.109))
  if t_max ≤ 0.109 then c2
  else if 0.109 < t_min then c1
  else if t_max < 0.2 then min c2 c4
  else c4

/-! ## Average-IM aggregator and target mean (`Sa_avg`, `rho_AvgSA_SA`, `create`) -/

/-- Cross-component conversion of the GMPE log-standard-deviation with the
hard-coded `ro_xy = 1` (`Sa_avg`, line 1481); `**0.5` is `Real.sqrt`. -/
noncomputable def sigmaConv (sg : ℝ → ℝ) (t : ℝ) : ℝ :=
  Real.log (Real.sqrt (Real.exp (sg t) ^ 2 * (2 / (1 + 1))))

/-- Log-mean of the average spectral acceleration over the period list `T`
(`Sa_avg`, line 1487): arithmetic mean of per-period GMPE log-means. -/
noncomputable def Sa_avg_mean (mu : ℝ → ℝ) (T : List ℝ) : ℝ :=
  (1 / (T.length : ℝ)) * (T.map mu).sum

/-- Log-variance of the average spectral acceleration (`Sa_avg`, lines
1489-1494): `(1/n)^2` times the correlation-weighted double sum. -/
noncomputable def Sa_avg_var (sg : ℝ → ℝ) (T : List ℝ) : ℝ :=
  (1 / (T.length : ℝ)) ^ 2 *
    (T.map (fun ti =>
      (T.map (fun tj => Baker_Jayaram_2008 ti tj * sigmaConv sg ti * sigmaConv sg tj)).sum)).sum

/-- Log-standard deviation of the average spectral acceleration (`Sa_avg`,
line 1499). -/
noncomputable def Sa_avg_sigma (sg : ℝ → ℝ) (T : List ℝ) : ℝ :=
  Real.sqrt (Sa_avg_var sg T)

/-- Correlation between `Sa(t)` and the average IM over `Tstar`
(`rho_AvgSA_SA`, lines 1528-1536); the numerator uses the raw GMPE sigma. -/
noncomputable def rho_AvgSA_SA (sg : ℝ → ℝ) (t : ℝ) (Tstar : List ℝ) : ℝ :=
  (Tstar.map (fun tj => Baker_Jayaram_2008 t tj * sg tj)).sum /
    ((Tstar.length : ℝ) * Sa_avg_sigma sg Tstar)

/-- Back-calculated epsilon for a scenario (`create`, line 305). -/
noncomputable def rupEps (mu sg : ℝ → ℝ) (Tstar : List ℝ) (im : ℝ) : ℝ :=
  (Real.log im - Sa_avg_mean mu Tstar) / Sa_avg_sigma sg Tstar

/-- One scenario's conditional target log-mean at grid period `t`
(`create`, line 310) with back-calculated epsilon (the `epsilon is None` path). -/
noncomputable def scenCondMeanAt (mu sg : ℝ → ℝ) (Tstar : List ℝ) (im t : ℝ) : ℝ :=
  mu t + rho_AvgSA_SA sg t Tstar * rupEps mu sg Tstar im * sg t

/-- Hazard-weighted combined target log-mean at grid period `t`
(`create`, line 342): scenarios are pairs of GMPE mean/sigma functions. -/
noncomputable def TgtMeanFinAt (scs : List ((ℝ → ℝ) × (ℝ → ℝ))) (ws : List ℝ)
    (Tstar : List ℝ) (im t : ℝ) : ℝ :=
  (List.zipWith (fun sc w => w * scenCondMeanAt sc.1 sc.2 Tstar im t) scs ws).sum

/-- The combined target log-mean vector over the period grid `T`. -/
noncomputable def muLnVec (scs : List ((ℝ → ℝ) × (ℝ → ℝ))) (ws : List ℝ)
    (Tstar : List ℝ) (im : ℝ) (T : List ℝ) : List ℝ :=
  T.map (TgtMeanFinAt scs ws Tstar im)

/-- Grid indices of the conditioning periods: for each `Tstar[k]` the first
grid index with `T == Tstar[k]` (`np.where(self.T == self.Tstar[k])[0][0]`,
`create` line 375 and `select` line 685). -/
noncomputable def indTstar (T Tstar : List ℝ) : List ℕ :=
  Tstar.map (fun t => T.findIdx (fun x => decide (x = t)))

/-- The conditioning intensity level recomputed from the combined target mean
(`create`, line 376). -/
noncomputable def imRecomputed (muln : List ℝ) (T Tstar : List ℝ) : ℝ :=
  Real.exp (sumAt muln (indTstar T Tstar) / (Tstar.length : ℝ))

/-- The conditioning intensity level stored on the object (`create`, lines
367-377): the caller's `im_Tstar` when `epsilon is None`, otherwise the
recomputed one. -/
noncomputable def imStored (epsilon : Option (List ℝ)) (imArg : ℝ)
    (muln : List ℝ) (T Tstar : List ℝ) : ℝ :=
  match epsilon with
  | none => imArg
  | some _ => imRecomputed muln T Tstar

/-! ## Covariance combination and clamping (`create`, lines 338-359) -/

/-- Zero out all per-scenario covariance matrices when `useVar = 0`
(`create`, lines 339-340). -/
def covAfterUseVar (useVar : ℕ) (covs : List (List (List ℝ))) : List (List (List ℝ)) :=
  if useVar = 0 then covs.map (fun M => M.map (fun row => row.map (fun _ => (0 : ℝ)))) else covs

/-- Combined target mean at grid index `i` (`create`, line 342), with
per-scenario mean vectors `means` and hazard weights `H`. -/
def tgtMeanFinIdx (means : List (List ℝ)) (H : List ℝ) (i : ℕ) : ℝ :=
  (List.zipWith (fun mn w => mn.getD i 0 * w) means H).sum

/-- Mixture diagonal entry at grid index `i` (`create`, lines 345-351):
hazard-weighted sum of within-scenario variance plus squared mean deviation. -/
def covDiagIdx (covs : List (List (List ℝ))) (means : List (List ℝ)) (H : List ℝ) (i : ℕ) : ℝ :=
  (List.zipWith (fun p w => ((p.1.getD i []).getD i 0 + (p.2.getD i 0 - tgtMeanFinIdx means H i) ^ 2) * w)
    (covs.zip means) H).sum

/-- Final combined covariance matrix (`create`, lines 338-356): scenario 0's
matrix with the diagonal replaced by the mixture diagonal, then every entry of
magnitude below `1e-10` clamped to `1e-10`. -/
noncomputable def TgtCovFin (useVar : ℕ) (covs : List (List (List ℝ))) (means : List (List ℝ))
    (H : List ℝ) : List (List ℝ) :=
  let covs' := covAfterUseVar useVar covs
  let M := covs'.getD 0 []
  let M2 := M.mapIdx (fun i row => row.set i (covDiagIdx covs' means H i))
  M2.map (fun row => row.map (fun x => if |x| < 1e-10 then 1e-10 else x))

/-- Final target log-standard-deviation vector (`create`, lines 358-359):
square roots of the clamped diagonal.  `Real.sqrt` of a negative entry is `0`,
matching the source's replacement of `NaN` by `0`. -/
noncomputable def TgtSigmaFin (useVar : ℕ) (covs : List (List (List ℝ)))
    (means : List (List ℝ)) (H : List ℝ) : List ℝ :=
  (TgtCovFin useVar covs means H).mapIdx (fun i row => Real.sqrt (row.getD i 0))

/-! ## Greedy selector (`select`, lines 644-791) -/

/-- The inputs the selection stage reads: conditioning mode, scaling mode,
optimization weights, scaling cap, penalty, subset size, tolerance, the target
statistics, the conditioning level, the period grid and conditioning periods,
the retained simulated spectra and the candidate pool (log spectra). -/
structure SelCfg where
  cond : ℕ
  isScaled : ℕ
  w0 : ℝ
  w1 : ℝ
  maxScale : ℝ
  penalty : ℝ
  nGM : ℕ
  tol : ℝ
  muLn : List ℝ
  sigmaLn : List ℝ
  imTstar : ℝ
  Tgrid : List ℝ
  Tstar : List ℝ
  simSpec : List (List ℝ)
  sampleBig : List (List ℝ)

/-- Mutable selection state: scaled log-spectra rows, selected record indices,
scale factors, and the `minID` local variable of the refinement loop (which in
the source is unbound until the first acceptance; `none` models that). -/
structure SelState where
  rows : List (List ℝ)
  recID : List ℕ
  scf : List ℝ
  minID : Option ℕ

/-- `ind1` of `select` (line 685): first grid index equal to each `Tstar[k]`. -/
noncomputable def ind1C (cfg : SelCfg) : List ℕ := indTstar cfg.Tgrid cfg.Tstar

/-- `ind2` of `select` (line 686), transcribed exactly: for each `Tstar[k]`
only the FIRST grid index whose period differs from `Tstar[k]`
(`np.where(self.T != self.Tstar[k])[0][0]`). -/
noncomputable def ind2C (cfg : SelCfg) : List ℕ :=
  cfg.Tstar.map (fun t => cfg.Tgrid.findIdx (fun x => decide (¬ x = t)))

/-- Candidate record `j`'s log-spectrum row. -/
def bigRow (cfg : SelCfg) (j : ℕ) : List ℝ := cfg.sampleBig.getD j []

/-- Phase 1 scale factor for simulated row `i` and candidate `j`
(`select`, lines 696-703): conditional mode divides the conditioning level by
the candidate's average IM over `T*`; unconditional mode is the least-squares
scalar against the simulated row `i`. -/
noncomputable def scaleFacP1 (cfg : SelCfg) (i j : ℕ) : ℝ :=
  if cfg.isScaled = 1 then
    if cfg.cond = 1 then
      cfg.imTstar / Real.exp (sumAt (bigRow cfg j) (ind1C cfg) / (cfg.Tstar.length : ℝ))
    else if cfg.cond = 0 then
      ((bigRow cfg j).zipWith (fun x y => Real.exp x * Real.exp y) (cfg.simSpec.getD i [])).sum /
        ((bigRow cfg j).map (fun x => Real.exp x ^ 2)).sum
    else 1
  else 1

/-- Phase 2 scale factor for slot `i` and candidate `j`, transcribed from the
refinement loop (`select`, lines 739-747). -/
noncomputable def scaleFacP2 (cfg : SelCfg) (i j : ℕ) : ℝ :=
  if cfg.isScaled = 1 then
    if cfg.cond = 1 then
      cfg.imTstar / Real.exp (sumAt (bigRow cfg j) (ind1C cfg) / (cfg.Tstar.length : ℝ))
    else if cfg.cond = 0 then
      ((bigRow cfg j).zipWith (fun x y => Real.exp x * Real.exp y) (cfg.simSpec.getD i [])).sum /
        ((bigRow cfg j).map (fun x => Real.exp x ^ 2)).sum
    else 1
  else 1

/-- Modelled from the spec's words, for comparison only (claim C1): the spec
asserts the Phase 2 unconditional scale factor is the least-squares scalar
benchmarked against the TARGET statistics, i.e. the Phase 1 formula with the
simulated row replaced by the target log-mean `mu_ln`. -/
noncomputable def p2ScaleSpecUncond (cfg : SelCfg) (j : ℕ) : ℝ :=
  ((bigRow cfg j).zipWith (fun x y => Real.exp x * Real.exp y) cfg.muLn).sum /
    ((bigRow cfg j).map (fun x => Real.exp x ^ 2)).sum

/-- Phase 1 selected row (`select`, lines 718-722):
`np.log(np.exp(sampleBig[recID[i]]) * finalScaleFac[i])`. -/
noncomputable def p1Row (cfg : SelCfg) (i j : ℕ) : List ℝ :=
  (bigRow cfg j).map (fun x => Real.log (Real.exp x * scaleFacP1 cfg i j))

/-- Phase 2 trial row (`select`, line 749):
`sampleBig[j] + np.log(scaleFac[j])`. -/
noncomputable def p2Row (cfg : SelCfg) (i j : ℕ) : List ℝ :=
  (bigRow cfg j).map (fun x => x + Real.log (scaleFacP2 cfg i j))

/-- Phase 1 error of candidate `j` for simulated row `i` (`select`, lines
705-710): `10^6` for excluded candidates (already selected, or scale factor
above the cap), otherwise the sum of squared log residuals. -/
noncomputable def p1Err (cfg : SelCfg) (prev : List ℕ) (i j : ℕ) : ℝ :=
  if j ∈ prev ∨ cfg.maxScale < scaleFacP1 cfg i j then 1000000
  else ((bigRow cfg j).zipWith
    (fun x y => (Real.log (Real.exp x * scaleFacP1 cfg i j) - y) ^ 2)
    (cfg.simSpec.getD i [])).sum

/-- First index attaining the minimum of `f` over `0..n-1`
(`np.argsort(err)[0]`). -/
noncomputable def argminIdx (f : ℕ → ℝ) (n : ℕ) : ℕ :=
  (List.range n).foldl (fun acc j => if f j < f acc then j else acc) 0

/-- Minimum of `f` over `0..n-1` (`err.min()`). -/
noncomputable def minOver (f : ℕ → ℝ) (n : ℕ) : ℝ :=
  ((List.range n).map f).foldl min (f 0)

/-- Phase 1 pick for simulated row `i` given the already selected indices
(`select`, lines 712-716): the minimum-error candidate, or `none` (the source
calls `sys.exit()`) when the minimum error is still at least `10^6`.  An empty
pool is also `none` (the source would crash indexing `argsort` of an empty
array). -/
noncomputable def p1Pick (cfg : SelCfg) (prev : List ℕ) (i : ℕ) : Option ℕ :=
  if cfg.sampleBig.length = 0 then none
  else if 1000000 ≤ minOver (p1Err cfg prev i) cfg.sampleBig.length then none
  else some (argminIdx (p1Err cfg prev i) cfg.sampleBig.length)

/-- One Phase 1 assignment step (`select`, lines 689-722). -/
noncomputable def p1Step (cfg : SelCfg) (st : SelState) (i : ℕ) : Option SelState :=
  match p1Pick cfg st.recID i with
  | none => none
  | some pick => some ⟨st.rows ++ [p1Row cfg i pick], st.recID ++ [pick],
      st.scf.set i (scaleFacP1 cfg i pick), st.minID⟩

/-- Phase 1 over the first `n` simulated rows. -/
noncomputable def phase1Aux (cfg : SelCfg) (n : ℕ) : Option SelState :=
  (List.range n).foldl (fun acc i => acc.bind (fun st => p1Step cfg st i))
    (some ⟨[], [], List.replicate cfg.nGM 1, none⟩)

/-- Phase 1 initial assignment: `nGM` rows, starting from unit scale factors
and an unbound (`none`) `minID`. -/
noncomputable def phase1 (cfg : SelCfg) : Option SelState := phase1Aux cfg cfg.nGM

/-- The greedy objective `devTotal` of a hypothetical selection (`select`,
lines 752-759): weighted squared deviations of per-period mean and standard
deviation from the target, plus the optional penalty counting (row, period)
pairs whose spectrum exceeds `exp(mu_ln + 3 sigma_ln)`. -/
noncomputable def devFn (cfg : SelCfg) (rows : List (List ℝ)) : ℝ :=
  cfg.w0 * ((List.range cfg.muLn.length).map
      (fun t => (lmean (col rows t) - cfg.muLn.getD t 0) ^ 2)).sum
  + cfg.w1 * ((List.range cfg.muLn.length).map
      (fun t => (lstd (col rows t) - cfg.sigmaLn.getD t 0) ^ 2)).sum
  + (if 0 < cfg.penalty then
      (rows.map (fun r => ((List.range cfg.muLn.length).map (fun t =>
        if Real.exp (cfg.muLn.getD t 0 + 3 * cfg.sigmaLn.getD t 0) < Real.exp (r.getD t 0)
        then (1 : ℝ) else 0)).sum)).sum * cfg.penalty
    else 0)

/-- `devTotal` of candidate `j` for slot `i` (`select`, lines 749-763): the
objective of the reduced selection plus the trial row, plus `10^6` when the
scale factor exceeds the cap or the record is already selected elsewhere. -/
noncomputable def devCand (cfg : SelCfg) (rows' : List (List ℝ)) (recID' : List ℕ)
    (i j : ℕ) : ℝ :=
  devFn cfg (rows' ++ [p2Row cfg i j])
  + (if cfg.maxScale < scaleFacP2 cfg i j ∨ j ∈ recID' then 1000000 else 0)

/-- The candidate scan of one slot (`select`, lines 731-771): running strict
minimum of `devTotal`, threaded through `(minDev, minID)`; `minID` keeps its
carried value when no candidate is accepted. -/
noncomputable def scanFold (g : ℕ → ℝ) (init : ℝ × Option ℕ) (js : List ℕ) : ℝ × Option ℕ :=
  js.foldl (fun acc j => if g j < acc.1 then (g j, some j) else acc) init

/-- One refinement slot (`select`, lines 729-780): delete slot `i`, scan the
whole pool with `minDev` reset to `100000`, then insert the winner back at
slot `i`.  When no candidate was ever accepted the carried `minID` is unbound
in the source (a `NameError`), modelled by `none`. -/
noncomputable def slotStep (cfg : SelCfg) (st : SelState) (i : ℕ) : Option SelState :=
  let rows' := st.rows.eraseIdx i
  let recID' := st.recID.eraseIdx i
  let res := scanFold (devCand cfg rows' recID' i) (100000, st.minID)
    (List.range cfg.sampleBig.length)
  match res.2 with
  | none => none
  | some m => some ⟨rows'.insertIdx i (p2Row cfg i m), recID'.insertIdx i m,
      st.scf.set i (if cfg.isScaled = 1 then scaleFacP2 cfg i m else 1), some m⟩

/-- The first `n` slots of one refinement pass. -/
noncomputable def runPassAux (cfg : SelCfg) (n : ℕ) (st : SelState) : Option SelState :=
  (List.range n).foldl (fun acc i => acc.bind (fun s => slotStep cfg s i)) (some st)

/-- One full refinement pass over all `nGM` slots (`select`, lines 729-780). -/
noncomputable def runPass (cfg : SelCfg) (st : SelState) : Option SelState :=
  runPassAux cfg cfg.nGM st

/-- `n` refinement passes applied to an optional state (no early stopping):
the states this function produces are exactly the end-of-pass states of the
optimization. -/
noncomputable def passesN (cfg : SelCfg) : ℕ → Option SelState → Option SelState
  | 0, o => o
  | n + 1, o => passesN cfg n (o.bind (runPass cfg))

/-- The convergence error pair of a selection (`select`, lines 782-788): max
percent error of the exponentiated column means, and of the column standard
deviations, computed over `ind2` when conditioning on a single period and over
all grid periods otherwise. -/
noncomputable def errPair (cfg : SelCfg) (rows : List (List ℝ)) : ℝ × ℝ :=
  if cfg.cond = 1 ∧ (ind1C cfg).length = 1 then
    (listMax ((ind2C cfg).map (fun t =>
        |Real.exp (lmean (col rows t)) - Real.exp (cfg.muLn.getD t 0)| /
          Real.exp (cfg.muLn.getD t 0) * 100)),
     listMax ((ind2C cfg).map (fun t =>
        |lstd (col rows t) - cfg.sigmaLn.getD t 0| / cfg.sigmaLn.getD t 0 * 100)))
  else
    (listMax ((List.range cfg.muLn.length).map (fun t =>
        |Real.exp (lmean (col rows t)) - Real.exp (cfg.muLn.getD t 0)| /
          Real.exp (cfg.muLn.getD t 0) * 100)),
     listMax ((List.range cfg.muLn.length).map (fun t =>
        |lstd (col rows t) - cfg.sigmaLn.getD t 0| / cfg.sigmaLn.getD t 0 * 100)))

/-- The early-stopping test (`select`, line 790). -/
noncomputable def stopEarly (cfg : SelCfg) (rows : List (List ℝ)) : Prop :=
  (errPair cfg rows).1 < cfg.tol ∧ (errPair cfg rows).2 < cfg.tol

/-- The bounded optimization loop (`select`, lines 727-791): up to `nLoop`
passes, stopping early when both convergence errors are below the tolerance. -/
noncomputable def runLoops (cfg : SelCfg) : ℕ → SelState → Option SelState
  | 0, st => some st
  | n + 1, st =>
    match runPass cfg st with
    | none => none
    | some st' => if stopEarly cfg st'.rows then some st' else runLoops cfg n st'

/-- Modelled from the spec's words, for comparison only (claim C2): the max
percent error of the selection's mean over ALL grid periods whose period does
not match a conditioning period. -/
noncomputable def specMeanErr (cfg : SelCfg) (rows : List (List ℝ)) : ℝ :=
  listMax ((((List.range cfg.muLn.length).filter
      (fun t => decide (¬ cfg.Tgrid.getD t 0 ∈ cfg.Tstar)))).map (fun t =>
    |Real.exp (lmean (col rows t)) - Real.exp (cfg.muLn.getD t 0)| /
      Real.exp (cfg.muLn.getD t 0) * 100))

/-! ## Selector state invariants -/

/-- Slot `k` of a selection state is coherent: its record index is in range,
its row is that record's spectrum scaled by the slot's scale factor, and the
scale factor respects the cap. -/
def cohSlot (cfg : SelCfg) (st : SelState) (k : ℕ) : Prop :=
  st.recID.getD k 0 < cfg.sampleBig.length
  ∧ st.rows.getD k [] = p2Row cfg k (st.recID.getD k 0)
  ∧ scaleFacP2 cfg k (st.recID.getD k 0) ≤ cfg.maxScale
  ∧ st.scf.getD k 1 = scaleFacP2 cfg k (st.recID.getD k 0)

/-- Structural invariant of a full selection state. -/
def WInv (cfg : SelCfg) (st : SelState) : Prop :=
  st.rows.length = cfg.nGM ∧ st.recID.length = cfg.nGM ∧ st.scf.length = cfg.nGM
  ∧ st.recID.Nodup ∧ ∀ k < cfg.nGM, cohSlot cfg st k

/-- Invariant threaded through the refinement passes: the structural invariant
plus the fact that once `minID` is bound the current selection's objective is
below the `100000` acceptance seed. -/
def SInv (cfg : SelCfg) (st : SelState) : Prop :=
  WInv cfg st ∧ (st.minID = none ∨ devFn cfg st.rows < 100000)

/-- Partial invariant of the Phase 1 assignment after `m` rows. -/
def P1Inv (cfg : SelCfg) (st : SelState) (m : ℕ) : Prop :=
  st.rows.length = m ∧ st.recID.length = m ∧ st.scf.length = cfg.nGM
  ∧ st.recID.Nodup ∧ (∀ k < m, cohSlot cfg st k) ∧ st.minID = none

/-- Hazard-weighted between-scenario variance of the target means at grid
index `i`: what remains on the mixture diagonal when the per-scenario
covariances are zeroed by `useVar = 0`. -/
def betweenVar (means : List (List ℝ)) (H : List ℝ) (i : ℕ) : ℝ :=
  (List.zipWith (fun mn w => (mn.getD i 0 - tgtMeanFinIdx means H i) ^ 2 * w) means H).sum

/-! ## Concrete instances used by the individual claims -/

/-- C1 instance: one record with log-spectrum `[0]`, one simulated row `[0]`,
target log-mean `[log 2]`, unconditional scaled selection. -/
noncomputable def cfgC1 : SelCfg :=
  ⟨0, 1, 1, 0, 4, 0, 1, 50, [Real.log 2], [1], 1, [1], [1], [[0]], [[0]]⟩

/-- C1 witness instance: conditional scaled selection on a one-period grid. -/
noncomputable def cfgC1b : SelCfg :=
  ⟨1, 1, 1, 0, 4, 0, 1, 50, [0], [1], 8, [2], [2], [[0]], [[Real.log 4]]⟩

/-- C2 instance: grid `[1,2,3]`, conditioning period `2`, zero target log-mean,
unit target sigma, tolerance 50 percent. -/
noncomputable def cfgC2 : SelCfg :=
  ⟨1, 1, 1, 1, 4, 0, 2, 50, [0, 0, 0], [1, 1, 1], 1, [1, 2, 3], [2], [], []⟩

/-- C2 instance: a two-record selection whose spectra match the target exactly
at the first two grid periods but are off by a factor 2 at the third. -/
noncomputable def rowsC2 : List (List ℝ) := [[-1, 0, Real.log 2], [1, 0, Real.log 2]]

/-- C3 instance: a single scenario with mean vector `[0]` and covariance
matrix `[[4]]`. -/
def covsC3 : List (List (List ℝ)) := [[[4]]]

/-- C3 instance: the scenario mean vectors. -/
def meansC3 : List (List ℝ) := [[0]]

/-- C3 instance: the hazard weights. -/
def HC3 : List ℝ := [1]

/-- C4 witness instance: one record, one slot, scaled unconditional mode. -/
noncomputable def cfgC4 : SelCfg :=
  ⟨0, 1, 1, 0, 2, 0, 1, 200, [0], [1], 1, [1], [1], [[0]], [[0]]⟩

/-- C4 witness instance: the state after Phase 1 and one refinement pass. -/
noncomputable def stC4fin : SelState := ⟨[[0]], [0], [1], some 0⟩

/-- C5 witness instance: two records, record 0 already selected. -/
noncomputable def cfgC5 : SelCfg :=
  ⟨0, 0, 1, 0, 4, 0, 1, 50, [0], [1], 1, [1], [1], [[0]], [[0], [5]]⟩

/-- C7 instance: two records `[-1/2]` and `[9/20]`, one slot, unscaled
unconditional mode, zero target log-mean, unit target sigma, tolerance 150. -/
noncomputable def cfgC7 : SelCfg :=
  ⟨0, 0, 1, 0, 4, 0, 1, 150, [0], [1], 1, [1], [1], [[0]], [[-1/2], [9/20]]⟩

/-- C7 instance: the selection holding record 0, before the extra pass. -/
noncomputable def stC7 : SelState := ⟨[[-1/2]], [0], [1], none⟩

/-- C7 instance: the selection after the extra pass (record 1 swapped in). -/
noncomputable def stC7fin : SelState := ⟨[[9/20]], [1], [1], some 1⟩

/-- C9 instance: a single far-off record `[1000]` so that every candidate's
`devTotal` is at least `100000`. -/
noncomputable def cfgC9 : SelCfg :=
  ⟨0, 0, 1, 0, 2, 0, 2, 50, [0], [1], 1, [1], [1], [[0], [0]], [[1000]]⟩

/-- C9 instance: a state carrying a stale `minID = some 3` with record 3
still selected at slot 1. -/
noncomputable def stC9 : SelState := ⟨[[0], [0]], [5, 3], [1, 1], some 3⟩

/-- C9 instance: the same state with `minID` still unbound. -/
noncomputable def stC9none : SelState := ⟨[[0], [0]], [5, 3], [1, 1], none⟩

/-- C10 witness instance: conditional scaled selection, grid `[2]`,
conditioning period `2`, record log-spectrum `[log 4]`. -/
noncomputable def cfgC10 : SelCfg :=
  ⟨1, 1, 1, 0, 4, 0, 1, 50, [0], [1], 8, [2], [2], [[0]], [[Real.log 4]]⟩

/-- The correlation model is symmetric in its two arguments. -/
theorem Baker_Jayaram_2008_symm (T1 T2 : ℝ) :
    Baker_Jayaram_2008 T1 T2 = Baker_Jayaram_2008 T2 T1 := by
  simp only [Baker_Jayaram_2008]
  rw [min_comm T1 T2, max_comm T1 T2]

/-- The correlation of a period with itself is exactly 1 (any real period). -/
theorem Baker_Jayaram_2008_self (t : ℝ) : Baker_Jayaram_2008 t t = 1 := by
  simp only [Baker_Jayaram_2008, min_self, max_self]
  by_cases h : t ≤ 0.109
  · have h2 : t < 0.2 := by linarith
    simp [h, h2]
  · have h1 : (0.109 : ℝ) < t := lt_of_not_le h
    have ht0 : t ≠ 0 := by positivity
    have hm : max t (0.109 : ℝ) = t := max_eq_left (le_of_lt h1)
    simp [h, h1, hm, div_self ht0]

/-! ## List helper lemmas -/

theorem list_sum_map_div (l : List ℝ) (f : ℝ → ℝ) (c : ℝ) :
    (l.map (fun x => f x / c)).sum = (l.map f).sum / c := by
  induction l with
  | nil => simp
  | cons a t ih => simp [ih, add_div]

theorem getD_map_of_lt {α β : Type*} (f : α → β) (l : List α) (i : ℕ) (d : β) (d' : α)
    (h : i < l.length) : (l.map f).getD i d = f (l.getD i d') := by
  rw [List.getD_eq_getElem _ _ (by simpa using h), List.getD_eq_getElem _ _ h, List.getElem_map]

theorem getD_set_self {α : Type*} (l : List α) (i : ℕ) (x d : α) (h : i < l.length) :
    (l.set i x).getD i d = x := by
  rw [List.getD_eq_getElem _ _ (by simpa using h), List.getElem_set]
  simp

theorem getD_set_ne {α : Type*} (l : List α) (i k : ℕ) (x d : α) (hne : i ≠ k) :
    (l.set i x).getD k d = l.getD k d := by
  by_cases hk : k < l.length
  · rw [List.getD_eq_getElem _ _ (by simpa using hk), List.getD_eq_getElem _ _ hk,
      List.getElem_set]
    simp [hne]
  · have h1 : l.length ≤ k := le_of_not_lt hk
    rw [List.getD_eq_default _ _ (by simpa using h1), List.getD_eq_default _ _ h1]

theorem eraseIdx_insertIdx_eq_set {α : Type*} :
    ∀ (l : List α) (i : ℕ) (x : α), i < l.length → (l.eraseIdx i).insertIdx i x = l.set i x
  | [], i, x, h => absurd h (by simp)
  | a :: t, 0, x, _ => by simp
  | a :: t, i + 1, x, h => by
    rw [List.eraseIdx_cons_succ, List.insertIdx_succ_cons, List.set_cons_succ,
      eraseIdx_insertIdx_eq_set t i x (by simpa using h)]

theorem perm_eraseIdx_append {α : Type*} (d : α) :
    ∀ (l : List α) (i : ℕ), i < l.length → l.Perm (l.eraseIdx i ++ [l.getD i d])
  | a :: t, 0, _ => by simpa using (List.perm_append_singleton a t).symm
  | a :: t, i + 1, h => by
    have ih := perm_eraseIdx_append d t i (by simpa using h)
    simpa using ih.cons a

theorem getD_mem {α : Type*} (l : List α) (i : ℕ) (d : α) (h : i < l.length) :
    l.getD i d ∈ l := by
  rw [List.getD_eq_getElem _ _ h]
  exact List.getElem_mem h

theorem getD_not_mem_eraseIdx {α : Type*} (d : α) :
    ∀ (l : List α) (i : ℕ), l.Nodup → i < l.length → l.getD i d ∉ l.eraseIdx i
  | a :: t, 0, hn, _ => by simpa using (List.nodup_cons.1 hn).1
  | a :: t, i + 1, hn, h => by
    intro hmem
    rw [List.getD_cons_succ, List.eraseIdx_cons_succ] at hmem
    rcases List.mem_cons.1 hmem with h1 | h1
    · exact (List.nodup_cons.1 hn).1 (h1 ▸ getD_mem t i d (by simpa using h))
    · exact getD_not_mem_eraseIdx d t i (List.nodup_cons.1 hn).2 (by simpa using h) h1

theorem nodup_set_of_not_mem {α : Type*} :
    ∀ (l : List α) (i : ℕ) (x : α), l.Nodup → x ∉ l.eraseIdx i → (l.set i x).Nodup
  | [], i, x, _, _ => by simp
  | a :: t, 0, x, hn, hx => by
    rw [List.eraseIdx_cons_zero] at hx
    exact List.nodup_cons.2 ⟨hx, (List.nodup_cons.1 hn).2⟩
  | a :: t, i + 1, x, hn, hx => by
    rw [List.eraseIdx_cons_succ] at hx
    have hxa : x ≠ a := fun he => hx (he ▸ List.mem_cons_self a _)
    have hxt : x ∉ t.eraseIdx i := fun hm => hx (List.mem_cons_of_mem a hm)
    rw [List.set_cons_succ]
    refine List.nodup_cons.2 ⟨?_, nodup_set_of_not_mem t i x (List.nodup_cons.1 hn).2 hxt⟩
    intro hmem
    rcases List.mem_or_eq_of_mem_set hmem with h1 | h1
    · exact (List.nodup_cons.1 hn).1 h1
    · exact hxa h1.symm

theorem nodup_append_singleton {α : Type*} (l : List α) (a : α) (hn : l.Nodup) (ha : a ∉ l) :
    (l ++ [a]).Nodup := by
  rw [List.nodup_append]
  exact ⟨hn, List.nodup_singleton a, fun x hx hx' => ha ((List.mem_singleton.1 hx') ▸ hx)⟩

theorem getD_append_of_lt {α : Type*} (l l' : List α) (d : α) (n : ℕ) (h : n < l.length) :
    (l ++ l').getD n d = l.getD n d := List.getD_append l l' d n h

theorem getD_append_len {α : Type*} (l : List α) (x d : α) :
    (l ++ [x]).getD l.length d = x := by
  rw [List.getD_eq_getElem _ _ (by simp), List.getElem_append_right (le_refl l.length)]
  simp

/-! ## Scan fold lemmas (the `(minDev, minID)` running minimum) -/

theorem scanFold_cons (g : ℕ → ℝ) (init : ℝ × Option ℕ) (j : ℕ) (t : List ℕ) :
    scanFold g init (j :: t) = scanFold g (if g j < init.1 then (g j, some j) else init) t := rfl

theorem scanFold_fst_le_init (g : ℕ → ℝ) :
    ∀ (js : List ℕ) (init : ℝ × Option ℕ), (scanFold g init js).1 ≤ init.1 := by
  intro js
  induction js with
  | nil => intro init; simp [scanFold]
  | cons j t ih =>
    intro init
    rw [scanFold_cons]
    refine le_trans (ih _) ?_
    by_cases h : g j < init.1 <;> simp [h, le_of_lt]

theorem scanFold_fst_le_mem (g : ℕ → ℝ) :
    ∀ (js : List ℕ) (init : ℝ × Option ℕ) (j : ℕ), j ∈ js → (scanFold g init js).1 ≤ g j := by
  intro js
  induction js with
  | nil => intro init j hj; simp at hj
  | cons a t ih =>
    intro init j hj
    rw [scanFold_cons]
    rcases List.mem_cons.1 hj with h1 | h1
    · subst h1
      refine le_trans (scanFold_fst_le_init g t _) ?_
      by_cases h : g j < init.1 <;> simp [h]
      exact le_of_not_lt h
    · exact ih _ j h1

theorem scanFold_eq_init_or (g : ℕ → ℝ) :
    ∀ (js : List ℕ) (init : ℝ × Option ℕ),
      scanFold g init js = init ∨ ∃ m ∈ js, scanFold g init js = (g m, some m) := by
  intro js
  induction js with
  | nil => intro init; left; rfl
  | cons a t ih =>
    intro init
    rw [scanFold_cons]
    by_cases h : g a < init.1
    · rw [if_pos h]
      rcases ih ((g a, some a) : ℝ × Option ℕ) with h1 | ⟨m, hm, h1⟩
      · exact Or.inr ⟨a, List.mem_cons_self a t, h1⟩
      · exact Or.inr ⟨m, List.mem_cons_of_mem a hm, h1⟩
    · rw [if_neg h]
      rcases ih init with h1 | ⟨m, hm, h1⟩
      · exact Or.inl h1
      · exact Or.inr ⟨m, List.mem_cons_of_mem a hm, h1⟩

theorem scanFold_no_update (g : ℕ → ℝ) :
    ∀ (js : List ℕ) (init : ℝ × Option ℕ), (∀ j ∈ js, ¬ g j < init.1) →
      scanFold g init js = init := by
  intro js
  induction js with
  | nil => intro init _; rfl
  | cons a t ih =>
    intro init hall
    rw [scanFold_cons, if_neg (hall a (List.mem_cons_self a t))]
    exact ih init (fun j hj => hall j (List.mem_cons_of_mem a hj))

/-! ## Argmin and min lemmas (Phase 1) -/

theorem foldl_argmin_eq_min (f : ℕ → ℝ) :
    ∀ (js : List ℕ) (a : ℕ),
      f (js.foldl (fun acc j => if f j < f acc then j else acc) a) = (js.map f).foldl min (f a) := by
  intro js
  induction js with
  | nil => intro a; rfl
  | cons j t ih =>
    intro a
    rw [List.foldl_cons, List.map_cons, List.foldl_cons, ih]
    congr 1
    by_cases h : f j < f a
    · rw [if_pos h, min_eq_right (le_of_lt h)]
    · rw [if_neg h, min_eq_left (le_of_not_lt h)]

theorem minOver_eq_argmin (f : ℕ → ℝ) (n : ℕ) : minOver f n = f (argminIdx f n) :=
  (foldl_argmin_eq_min f (List.range n) 0).symm

theorem argminIdx_lt (f : ℕ → ℝ) (n : ℕ) (h : 0 < n) : argminIdx f n < n := by
  have key : ∀ (js : List ℕ) (a : ℕ), a < n → (∀ j ∈ js, j < n) →
      js.foldl (fun acc j => if f j < f acc then j else acc) a < n := by
    intro js
    induction js with
    | nil => intro a ha _; exact ha
    | cons j t ih =>
      intro a ha hall
      rw [List.foldl_cons]
      refine ih _ ?_ (fun x hx => hall x (List.mem_cons_of_mem j hx))
      by_cases hc : f j < f a
      · rw [if_pos hc]; exact hall j (List.mem_cons_self j t)
      · rw [if_neg hc]; exact ha
  exact key (List.range n) 0 h (fun j hj => List.mem_range.1 hj)

theorem foldl_min_le_seed : ∀ (l : List ℝ) (a : ℝ), l.foldl min a ≤ a := by
  intro l
  induction l with
  | nil => intro a; exact le_refl a
  | cons x t ih => intro a; exact le_trans (ih (min a x)) (min_le_left a x)

theorem foldl_min_le_mem : ∀ (l : List ℝ) (a x : ℝ), x ∈ l → l.foldl min a ≤ x := by
  intro l
  induction l with
  | nil => intro a x hx; simp at hx
  | cons y t ih =>
    intro a x hx
    rcases List.mem_cons.1 hx with h1 | h1
    · subst h1
      exact le_trans (foldl_min_le_seed t (min a x)) (min_le_right a x)
    · exact ih (min a y) x h1

theorem minOver_le (f : ℕ → ℝ) (n j : ℕ) (hj : j < n) : minOver f n ≤ f j :=
  foldl_min_le_mem _ _ _ (List.mem_map_of_mem f (List.mem_range.2 hj))

theorem foldl_min_const (c : ℝ) : ∀ (l : List ℝ), (∀ x ∈ l, x = c) → l.foldl min c = c := by
  intro l
  induction l with
  | nil => intro _; rfl
  | cons x t ih =>
    intro hall
    rw [List.foldl_cons, hall x (List.mem_cons_self x t), min_self]
    exact ih (fun y hy => hall y (List.mem_cons_of_mem x hy))

/-! ## Objective function lemmas -/

theorem lmean_perm {l1 l2 : List ℝ} (h : l1.Perm l2) : lmean l1 = lmean l2 := by
  simp [lmean, h.sum_eq, h.length_eq]

theorem lstd_perm {l1 l2 : List ℝ} (h : l1.Perm l2) : lstd l1 = lstd l2 := by
  have hm := lmean_perm h
  simp only [lstd, hm]
  congr 1
  exact lmean_perm (h.map _)

theorem col_perm (t : ℕ) {r1 r2 : List (List ℝ)} (h : r1.Perm r2) :
    (col r1 t).Perm (col r2 t) := h.map _

theorem devFn_perm (cfg : SelCfg) {r1 r2 : List (List ℝ)} (h : r1.Perm r2) :
    devFn cfg r1 = devFn cfg r2 := by
  have e1 : (List.range cfg.muLn.length).map
        (fun t => (lmean (col r1 t) - cfg.muLn.getD t 0) ^ 2)
      = (List.range cfg.muLn.length).map
        (fun t => (lmean (col r2 t) - cfg.muLn.getD t 0) ^ 2) :=
    List.map_congr_left (fun t _ => by rw [lmean_perm (col_perm t h)])
  have e2 : (List.range cfg.muLn.length).map
        (fun t => (lstd (col r1 t) - cfg.sigmaLn.getD t 0) ^ 2)
      = (List.range cfg.muLn.length).map
        (fun t => (lstd (col r2 t) - cfg.sigmaLn.getD t 0) ^ 2) :=
    List.map_congr_left (fun t _ => by rw [lstd_perm (col_perm t h)])
  have e3 : (r1.map (fun r => ((List.range cfg.muLn.length).map (fun t =>
        if Real.exp (cfg.muLn.getD t 0 + 3 * cfg.sigmaLn.getD t 0) < Real.exp (r.getD t 0)
        then (1 : ℝ) else 0)).sum)).sum
      = (r2.map (fun r => ((List.range cfg.muLn.length).map (fun t =>
        if Real.exp (cfg.muLn.getD t 0 + 3 * cfg.sigmaLn.getD t 0) < Real.exp (r.getD t 0)
        then (1 : ℝ) else 0)).sum)).sum := (h.map _).sum_eq
  simp only [devFn]
  rw [e1, e2, e3]

theorem devFn_nonneg (cfg : SelCfg) (rows : List (List ℝ)) (hw0 : 0 ≤ cfg.w0)
    (hw1 : 0 ≤ cfg.w1) : 0 ≤ devFn cfg rows := by
  have s1 : (0:ℝ) ≤ ((List.range cfg.muLn.length).map
      (fun t => (lmean (col rows t) - cfg.muLn.getD t 0) ^ 2)).sum := by
    refine List.sum_nonneg ?_
    intro x hx
    rcases List.mem_map.1 hx with ⟨t, _, rfl⟩
    positivity
  have s2 : (0:ℝ) ≤ ((List.range cfg.muLn.length).map
      (fun t => (lstd (col rows t) - cfg.sigmaLn.getD t 0) ^ 2)).sum := by
    refine List.sum_nonneg ?_
    intro x hx
    rcases List.mem_map.1 hx with ⟨t, _, rfl⟩
    positivity
  have s3 : (0:ℝ) ≤ (if 0 < cfg.penalty then
      (rows.map (fun r => ((List.range cfg.muLn.length).map (fun t =>
        if Real.exp (cfg.muLn.getD t 0 + 3 * cfg.sigmaLn.getD t 0) < Real.exp (r.getD t 0)
        then (1 : ℝ) else 0)).sum)).sum * cfg.penalty
    else 0) := by
    by_cases hp : 0 < cfg.penalty
    · rw [if_pos hp]
      refine mul_nonneg ?_ (le_of_lt hp)
      refine List.sum_nonneg ?_
      intro x hx
      rcases List.mem_map.1 hx with ⟨r, _, rfl⟩
      refine List.sum_nonneg ?_
      intro y hy
      rcases List.mem_map.1 hy with ⟨t, _, rfl⟩
      split <;> norm_num
    · rw [if_neg hp]
  simp only [devFn]
  have := add_nonneg (add_nonneg (mul_nonneg hw0 s1) (mul_nonneg hw1 s2)) s3
  linarith

/-! ## Selector machinery lemmas -/

theorem scaleFacP2_eq_P1 : @scaleFacP2 = @scaleFacP1 := rfl

theorem scf_if_eq (cfg : SelCfg) (i m : ℕ) :
    (if cfg.isScaled = 1 then scaleFacP2 cfg i m else 1) = scaleFacP2 cfg i m := by
  by_cases h : cfg.isScaled = 1 <;> simp [scaleFacP2, h]

theorem p1Row_eq_p2Row (cfg : SelCfg) (i j : ℕ) (hs : 0 < scaleFacP1 cfg i j) :
    p1Row cfg i j = p2Row cfg i j := by
  simp only [p1Row, p2Row, scaleFacP2_eq_P1]
  refine List.map_congr_left ?_
  intro x _
  rw [Real.log_mul (Real.exp_ne_zero x) (ne_of_gt hs), Real.log_exp]

theorem devCand_nonneg (cfg : SelCfg) (rows' : List (List ℝ)) (recID' : List ℕ) (i j : ℕ)
    (hw0 : 0 ≤ cfg.w0) (hw1 : 0 ≤ cfg.w1) : 0 ≤ devCand cfg rows' recID' i j := by
  unfold devCand
  have h1 := devFn_nonneg cfg (rows' ++ [p2Row cfg i j]) hw0 hw1
  by_cases hex : cfg.maxScale < scaleFacP2 cfg i j ∨ j ∈ recID'
  · rw [if_pos hex]; linarith
  · rw [if_neg hex]; linarith

theorem devCand_occupant (cfg : SelCfg) (st : SelState) (i : ℕ)
    (hlenR : st.rows.length = cfg.nGM) (hlenI : st.recID.length = cfg.nGM)
    (hnd : st.recID.Nodup) (hi : i < cfg.nGM) (hcoh : cohSlot cfg st i) :
    st.recID.getD i 0 < cfg.sampleBig.length
    ∧ devCand cfg (st.rows.eraseIdx i) (st.recID.eraseIdx i) i (st.recID.getD i 0)
        = devFn cfg st.rows := by
  obtain ⟨hjlt, hrow, hsc, _⟩ := hcoh
  refine ⟨hjlt, ?_⟩
  have hnotmem : st.recID.getD i 0 ∉ st.recID.eraseIdx i :=
    getD_not_mem_eraseIdx 0 st.recID i hnd (by rw [hlenI]; exact hi)
  have hnotex : ¬(cfg.maxScale < scaleFacP2 cfg i (st.recID.getD i 0)
      ∨ st.recID.getD i 0 ∈ st.recID.eraseIdx i) := by
    intro h
    rcases h with h | h
    · exact absurd hsc (not_le.2 h)
    · exact hnotmem h
  have hperm : st.rows.Perm (st.rows.eraseIdx i ++ [st.rows.getD i []]) :=
    perm_eraseIdx_append [] st.rows i (by rw [hlenR]; exact hi)
  calc devCand cfg (st.rows.eraseIdx i) (st.recID.eraseIdx i) i (st.recID.getD i 0)
      = devFn cfg (st.rows.eraseIdx i ++ [p2Row cfg i (st.recID.getD i 0)]) := by
        rw [devCand, if_neg hnotex, add_zero]
    _ = devFn cfg (st.rows.eraseIdx i ++ [st.rows.getD i []]) := by rw [hrow]
    _ = devFn cfg st.rows := (devFn_perm cfg hperm).symm

theorem slotStep_accept (cfg : SelCfg) (st : SelState) (i : ℕ)
    (hw0 : 0 ≤ cfg.w0) (hw1 : 0 ≤ cfg.w1)
    (hlenR : st.rows.length = cfg.nGM) (hlenI : st.recID.length = cfg.nGM)
    (hi : i < cfg.nGM)
    (hacc : ∃ j, j < cfg.sampleBig.length ∧
      devCand cfg (st.rows.eraseIdx i) (st.recID.eraseIdx i) i j < 100000) :
    ∃ m, slotStep cfg st i = some ⟨st.rows.set i (p2Row cfg i m), st.recID.set i m,
        st.scf.set i (scaleFacP2 cfg i m), some m⟩
      ∧ m < cfg.sampleBig.length
      ∧ m ∉ st.recID.eraseIdx i
      ∧ scaleFacP2 cfg i m ≤ cfg.maxScale
      ∧ devFn cfg (st.rows.set i (p2Row cfg i m))
          = devCand cfg (st.rows.eraseIdx i) (st.recID.eraseIdx i) i m
      ∧ devCand cfg (st.rows.eraseIdx i) (st.recID.eraseIdx i) i m < 100000
      ∧ (∀ j, j < cfg.sampleBig.length →
          devCand cfg (st.rows.eraseIdx i) (st.recID.eraseIdx i) i m
            ≤ devCand cfg (st.rows.eraseIdx i) (st.recID.eraseIdx i) i j) := by
  obtain ⟨j0, hj0, hj0lt⟩ := hacc
  have hfoldle : (scanFold (devCand cfg (st.rows.eraseIdx i) (st.recID.eraseIdx i) i)
      ((100000 : ℝ), st.minID) (List.range cfg.sampleBig.length)).1
      ≤ devCand cfg (st.rows.eraseIdx i) (st.recID.eraseIdx i) i j0 :=
    scanFold_fst_le_mem _ _ _ j0 (List.mem_range.2 hj0)
  have hlt : (scanFold (devCand cfg (st.rows.eraseIdx i) (st.recID.eraseIdx i) i)
      ((100000 : ℝ), st.minID) (List.range cfg.sampleBig.length)).1 < 100000 :=
    lt_of_le_of_lt hfoldle hj0lt
  rcases scanFold_eq_init_or (devCand cfg (st.rows.eraseIdx i) (st.recID.eraseIdx i) i)
      (List.range cfg.sampleBig.length) ((100000 : ℝ), st.minID) with heq | ⟨m, hm, heq⟩
  · rw [heq] at hlt
    norm_num at hlt
  · have hfst : (scanFold (devCand cfg (st.rows.eraseIdx i) (st.recID.eraseIdx i) i)
        ((100000 : ℝ), st.minID) (List.range cfg.sampleBig.length)).1
        = devCand cfg (st.rows.eraseIdx i) (st.recID.eraseIdx i) i m := by rw [heq]
    have hgm : devCand cfg (st.rows.eraseIdx i) (st.recID.eraseIdx i) i m < 100000 :=
      hfst ▸ hlt
    have hnotex : ¬(cfg.maxScale < scaleFacP2 cfg i m ∨ m ∈ st.recID.eraseIdx i) := by
      intro hex
      have he : devCand cfg (st.rows.eraseIdx i) (st.recID.eraseIdx i) i m
          = devFn cfg (st.rows.eraseIdx i ++ [p2Row cfg i m]) + 1000000 := by
        rw [devCand, if_pos hex]
      have hd := devFn_nonneg cfg (st.rows.eraseIdx i ++ [p2Row cfg i m]) hw0 hw1
      rw [he] at hgm
      linarith
    have hiR : i < st.rows.length := by rw [hlenR]; exact hi
    have hiI : i < st.recID.length := by rw [hlenI]; exact hi
    have hset : (st.rows.eraseIdx i).insertIdx i (p2Row cfg i m)
        = st.rows.set i (p2Row cfg i m) := eraseIdx_insertIdx_eq_set st.rows i _ hiR
    have hsetI : (st.recID.eraseIdx i).insertIdx i m
        = st.recID.set i m := eraseIdx_insertIdx_eq_set st.recID i m hiI
    have hstep : slotStep cfg st i = some ⟨st.rows.set i (p2Row cfg i m), st.recID.set i m,
        st.scf.set i (scaleFacP2 cfg i m), some m⟩ := by
      simp only [slotStep]
      rw [heq]
      simp only [hset, hsetI, scf_if_eq]
    have hile : i ≤ (st.rows.eraseIdx i).length := by
      rw [List.length_eraseIdx, if_pos hiR, hlenR]
      exact Nat.le_pred_of_lt hi
    have hperm : ((st.rows.eraseIdx i).insertIdx i (p2Row cfg i m)).Perm
        (st.rows.eraseIdx i ++ [p2Row cfg i m]) :=
      (List.perm_insertIdx _ _ hile).trans (List.perm_append_singleton _ _).symm
    have hdEq : devFn cfg (st.rows.set i (p2Row cfg i m))
        = devCand cfg (st.rows.eraseIdx i) (st.recID.eraseIdx i) i m := by
      rw [← hset, devFn_perm cfg hperm, devCand, if_neg hnotex, add_zero]
    refine ⟨m, hstep, List.mem_range.1 hm, ?_, ?_, hdEq, hgm, ?_⟩
    · intro hmem
      exact hnotex (Or.inr hmem)
    · by_contra hc
      exact hnotex (Or.inl (lt_of_not_le hc))
    · intro j hj
      exact hfst ▸ scanFold_fst_le_mem _ _ _ j (List.mem_range.2 hj)

theorem slotStep_accepted (cfg : SelCfg) (st : SelState) (i : ℕ)
    (hw0 : 0 ≤ cfg.w0) (hw1 : 0 ≤ cfg.w1) (hi : i < cfg.nGM) (hW : WInv cfg st)
    (hacc : ∃ j, j < cfg.sampleBig.length ∧
      devCand cfg (st.rows.eraseIdx i) (st.recID.eraseIdx i) i j < 100000) :
    ∃ st', slotStep cfg st i = some st' ∧ WInv cfg st' ∧ st'.minID ≠ none
      ∧ devFn cfg st'.rows < 100000
      ∧ (∀ j, j < cfg.sampleBig.length →
          devFn cfg st'.rows ≤ devCand cfg (st.rows.eraseIdx i) (st.recID.eraseIdx i) i j) := by
  obtain ⟨hlR, hlI, hlS, hnd, hcoh⟩ := hW
  obtain ⟨m, hstep, hmlt, hnm, hsc, hdEq, hdlt, hmin⟩ :=
    slotStep_accept cfg st i hw0 hw1 hlR hlI hi hacc
  refine ⟨_, hstep, ⟨?_, ?_, ?_, ?_, ?_⟩, by simp, ?_, ?_⟩
  · simpa [List.length_set] using hlR
  · simpa [List.length_set] using hlI
  · simpa [List.length_set] using hlS
  · exact nodup_set_of_not_mem st.recID i m hnd hnm
  · intro k hk
    by_cases hki : k = i
    · subst hki
      have hgid : (st.recID.set k m).getD k 0 = m :=
        getD_set_self st.recID k m 0 (by rw [hlI]; exact hk)
      refine ⟨?_, ?_, ?_, ?_⟩
      · rw [hgid]; exact hmlt
      · rw [hgid, getD_set_self st.rows k _ [] (by rw [hlR]; exact hk)]
      · rw [hgid]; exact hsc
      · rw [hgid, getD_set_self st.scf k _ 1 (by rw [hlS]; exact hk)]
    · have hik : i ≠ k := fun h => hki h.symm
      have hgid : (st.recID.set i m).getD k 0 = st.recID.getD k 0 :=
        getD_set_ne st.recID i k m 0 hik
      obtain ⟨c1, c2, c3, c4⟩ := hcoh k hk
      refine ⟨?_, ?_, ?_, ?_⟩
      · rw [hgid]; exact c1
      · rw [hgid, getD_set_ne st.rows i k _ [] hik]; exact c2
      · rw [hgid]; exact c3
      · rw [hgid, getD_set_ne st.scf i k _ 1 hik]; exact c4
  · rw [hdEq]; exact hdlt
  · intro j hj
    rw [hdEq]; exact hmin j hj

theorem slotStep_strong (cfg : SelCfg) (st : SelState) (i : ℕ)
    (hw0 : 0 ≤ cfg.w0) (hw1 : 0 ≤ cfg.w1) (hi : i < cfg.nGM) (hW : WInv cfg st)
    (hdev : devFn cfg st.rows < 100000) :
    ∃ st', slotStep cfg st i = some st' ∧ WInv cfg st' ∧ st'.minID ≠ none
      ∧ devFn cfg st'.rows ≤ devFn cfg st.rows ∧ devFn cfg st'.rows < 100000 := by
  obtain ⟨hocclt, hoccEq⟩ := devCand_occupant cfg st i hW.1 hW.2.1 hW.2.2.2.1 hi
    (hW.2.2.2.2 i hi)
  have hacc : ∃ j, j < cfg.sampleBig.length ∧
      devCand cfg (st.rows.eraseIdx i) (st.recID.eraseIdx i) i j < 100000 :=
    ⟨st.recID.getD i 0, hocclt, by rw [hoccEq]; exact hdev⟩
  obtain ⟨st', hstep, hW', hm', hd', hle'⟩ :=
    slotStep_accepted cfg st i hw0 hw1 hi ⟨hW.1, hW.2.1, hW.2.2.1, hW.2.2.2.1, hW.2.2.2.2⟩ hacc
  refine ⟨st', hstep, hW', hm', ?_, hd'⟩
  calc devFn cfg st'.rows
      ≤ devCand cfg (st.rows.eraseIdx i) (st.recID.eraseIdx i) i (st.recID.getD i 0) :=
        hle' _ hocclt
    _ = devFn cfg st.rows := hoccEq

theorem slotStep_SInv (cfg : SelCfg) (st : SelState) (i : ℕ)
    (hw0 : 0 ≤ cfg.w0) (hw1 : 0 ≤ cfg.w1) (hi : i < cfg.nGM) (hS : SInv cfg st) :
    slotStep cfg st i = none
    ∨ ∃ st', slotStep cfg st i = some st' ∧ SInv cfg st' := by
  obtain ⟨hW, hdisj⟩ := hS
  by_cases hacc : ∃ j, j < cfg.sampleBig.length ∧
      devCand cfg (st.rows.eraseIdx i) (st.recID.eraseIdx i) i j < 100000
  · obtain ⟨st', hstep, hW', _, hd', _⟩ := slotStep_accepted cfg st i hw0 hw1 hi hW hacc
    exact Or.inr ⟨st', hstep, hW', Or.inr hd'⟩
  · push_neg at hacc
    have hnoup : scanFold (devCand cfg (st.rows.eraseIdx i) (st.recID.eraseIdx i) i)
        ((100000 : ℝ), st.minID) (List.range cfg.sampleBig.length)
        = ((100000 : ℝ), st.minID) := by
      refine scanFold_no_update _ _ _ ?_
      intro j hj
      exact not_lt.2 (hacc j (List.mem_range.1 hj))
    cases hmid : st.minID with
    | none =>
      left
      rw [hmid] at hnoup
      simp only [slotStep, hmid]
      rw [hnoup]
    | some w =>
      exfalso
      have hdev : devFn cfg st.rows < 100000 := by
        rcases hdisj with h | h
        · rw [hmid] at h; exact absurd h (by simp)
        · exact h
      obtain ⟨hocclt, hoccEq⟩ := devCand_occupant cfg st i hW.1 hW.2.1 hW.2.2.2.1 hi
        (hW.2.2.2.2 i hi)
      exact absurd (by rw [hoccEq]; exact hdev) (not_lt.2 (hacc _ hocclt))

theorem runPassAux_succ (cfg : SelCfg) (n : ℕ) (st : SelState) :
    runPassAux cfg (n + 1) st
      = (runPassAux cfg n st).bind (fun s => slotStep cfg s n) := by
  simp [runPassAux, List.range_succ, List.foldl_append]

theorem runPassAux_SInv (cfg : SelCfg) (hw0 : 0 ≤ cfg.w0) (hw1 : 0 ≤ cfg.w1) :
    ∀ (n : ℕ), n ≤ cfg.nGM → ∀ st, SInv cfg st →
      runPassAux cfg n st = none
      ∨ ∃ st', runPassAux cfg n st = some st' ∧ SInv cfg st' := by
  intro n
  induction n with
  | zero => intro _ st hS; exact Or.inr ⟨st, rfl, hS⟩
  | succ n ih =>
    intro hn st hS
    rcases ih (Nat.le_of_succ_le hn) st hS with h1 | ⟨st1, h1, hS1⟩
    · left
      rw [runPassAux_succ, h1]
      rfl
    · rw [runPassAux_succ, h1]
      simpa using slotStep_SInv cfg st1 n hw0 hw1 (Nat.lt_of_succ_le hn) hS1

theorem runPass_SInv (cfg : SelCfg) (st : SelState) (hw0 : 0 ≤ cfg.w0) (hw1 : 0 ≤ cfg.w1)
    (hS : SInv cfg st) :
    runPass cfg st = none ∨ ∃ st', runPass cfg st = some st' ∧ SInv cfg st' :=
  runPassAux_SInv cfg hw0 hw1 cfg.nGM (le_refl _) st hS

theorem runPassAux_strong (cfg : SelCfg) (hw0 : 0 ≤ cfg.w0) (hw1 : 0 ≤ cfg.w1) :
    ∀ (n : ℕ), n ≤ cfg.nGM → ∀ st, WInv cfg st → devFn cfg st.rows < 100000 →
      ∃ st', runPassAux cfg n st = some st' ∧ WInv cfg st'
        ∧ devFn cfg st'.rows ≤ devFn cfg st.rows ∧ devFn cfg st'.rows < 100000 := by
  intro n
  induction n with
  | zero => intro _ st hW hdev; exact ⟨st, rfl, hW, le_refl _, hdev⟩
  | succ n ih =>
    intro hn st hW hdev
    obtain ⟨st1, h1, hW1, hle1, hlt1⟩ := ih (Nat.le_of_succ_le hn) st hW hdev
    obtain ⟨st2, h2, hW2, _, hle2, hlt2⟩ :=
      slotStep_strong cfg st1 n hw0 hw1 (Nat.lt_of_succ_le hn) hW1 hlt1
    refine ⟨st2, ?_, hW2, le_trans hle2 hle1, hlt2⟩
    rw [runPassAux_succ, h1]
    simpa using h2

theorem passesN_none (cfg : SelCfg) : ∀ n, passesN cfg n none = none := by
  intro n
  induction n with
  | zero => rfl
  | succ n ih => simpa [passesN] using ih

theorem passesN_SInv (cfg : SelCfg) (hw0 : 0 ≤ cfg.w0) (hw1 : 0 ≤ cfg.w1) :
    ∀ (n : ℕ) (st : SelState), SInv cfg st →
      passesN cfg n (some st) = none
      ∨ ∃ st', passesN cfg n (some st) = some st' ∧ SInv cfg st' := by
  intro n
  induction n with
  | zero => intro st hS; exact Or.inr ⟨st, rfl, hS⟩
  | succ n ih =>
    intro st hS
    have hred : passesN cfg (n + 1) (some st) = passesN cfg n (runPass cfg st) := by
      simp [passesN]
    rcases runPass_SInv cfg st hw0 hw1 hS with h1 | ⟨st1, h1, hS1⟩
    · left
      rw [hred, h1, passesN_none]
    · rw [hred, h1]
      exact ih st1 hS1

/-! ## Phase 1 lemmas -/

theorem p1Pick_props (cfg : SelCfg) (prev : List ℕ) (i pick : ℕ)
    (h : p1Pick cfg prev i = some pick) :
    pick < cfg.sampleBig.length ∧ p1Err cfg prev i pick < 1000000
    ∧ pick ∉ prev ∧ scaleFacP1 cfg i pick ≤ cfg.maxScale
    ∧ p1Err cfg prev i pick = minOver (p1Err cfg prev i) cfg.sampleBig.length := by
  by_cases h0 : cfg.sampleBig.length = 0
  · rw [p1Pick, if_pos h0] at h
    exact absurd h (by simp)
  by_cases h1 : (1000000 : ℝ) ≤ minOver (p1Err cfg prev i) cfg.sampleBig.length
  · rw [p1Pick, if_neg h0, if_pos h1] at h
    exact absurd h (by simp)
  rw [p1Pick, if_neg h0, if_neg h1] at h
  have hpick : pick = argminIdx (p1Err cfg prev i) cfg.sampleBig.length :=
    (Option.some_injective _ h).symm
  have hmin : p1Err cfg prev i pick = minOver (p1Err cfg prev i) cfg.sampleBig.length := by
    rw [hpick, minOver_eq_argmin]
  have herr : p1Err cfg prev i pick < 1000000 := by
    rw [hmin]
    exact lt_of_not_le h1
  have hnex : ¬(pick ∈ prev ∨ cfg.maxScale < scaleFacP1 cfg i pick) := by
    intro hex
    rw [p1Err, if_pos hex] at herr
    norm_num at herr
  refine ⟨?_, herr, fun hm => hnex (Or.inl hm), ?_, hmin⟩
  · rw [hpick]
    exact argminIdx_lt _ _ (Nat.pos_of_ne_zero h0)
  · by_contra hc
    exact hnex (Or.inr (lt_of_not_le hc))

theorem p1Step_inv (cfg : SelCfg) (st : SelState) (i : ℕ)
    (hs : ∀ a b, a < cfg.nGM → b < cfg.sampleBig.length → 0 < scaleFacP1 cfg a b)
    (hi : i < cfg.nGM) (hP : P1Inv cfg st i) :
    p1Step cfg st i = none ∨ ∃ st', p1Step cfg st i = some st' ∧ P1Inv cfg st' (i + 1) := by
  obtain ⟨hlR, hlI, hlS, hnd, hcoh, hmin⟩ := hP
  cases hpk : p1Pick cfg st.recID i with
  | none =>
    left
    simp [p1Step, hpk]
  | some pick =>
    right
    obtain ⟨hplt, _, hpnm, hpsc, _⟩ := p1Pick_props cfg st.recID i pick hpk
    refine ⟨⟨st.rows ++ [p1Row cfg i pick], st.recID ++ [pick],
      st.scf.set i (scaleFacP1 cfg i pick), st.minID⟩, by simp [p1Step, hpk],
      ?_, ?_, ?_, ?_, ?_, hmin⟩
    · simp [hlR]
    · simp [hlI]
    · simp [List.length_set, hlS]
    · exact nodup_append_singleton st.recID pick hnd hpnm
    · intro k hk
      by_cases hki : k = i
      · subst hki
        have hgI : (st.recID ++ [pick]).getD k 0 = pick := by
          rw [← hlI]
          exact getD_append_len st.recID pick 0
        have hgR : (st.rows ++ [p1Row cfg k pick]).getD k [] = p1Row cfg k pick := by
          rw [← hlR]
          exact getD_append_len st.rows _ []
        refine ⟨?_, ?_, ?_, ?_⟩
        · rw [hgI]; exact hplt
        · rw [hgI, hgR, p1Row_eq_p2Row cfg k pick (hs k pick hi hplt)]
        · rw [hgI, scaleFacP2_eq_P1]; exact hpsc
        · rw [hgI, getD_set_self st.scf k _ 1 (by rw [hlS]; exact hi), scaleFacP2_eq_P1]
      · have hklt : k < i := lt_of_le_of_ne (Nat.lt_succ_iff.1 hk) hki
        obtain ⟨c1, c2, c3, c4⟩ := hcoh k hklt
        have hgI : (st.recID ++ [pick]).getD k 0 = st.recID.getD k 0 :=
          getD_append_of_lt st.recID [pick] 0 k (by rw [hlI]; exact hklt)
        have hgR : (st.rows ++ [p1Row cfg i pick]).getD k [] = st.rows.getD k [] :=
          getD_append_of_lt st.rows _ [] k (by rw [hlR]; exact hklt)
        refine ⟨?_, ?_, ?_, ?_⟩
        · rw [hgI]; exact c1
        · rw [hgI, hgR]; exact c2
        · rw [hgI]; exact c3
        · rw [hgI, getD_set_ne st.scf i k _ 1 (fun h => hki h.symm)]; exact c4

theorem phase1Aux_succ (cfg : SelCfg) (n : ℕ) :
    phase1Aux cfg (n + 1) = (phase1Aux cfg n).bind (fun st => p1Step cfg st n) := by
  simp [phase1Aux, List.range_succ, List.foldl_append]

theorem phase1Aux_inv (cfg : SelCfg)
    (hs : ∀ a b, a < cfg.nGM → b < cfg.sampleBig.length → 0 < scaleFacP1 cfg a b) :
    ∀ (n : ℕ), n ≤ cfg.nGM →
      phase1Aux cfg n = none
      ∨ ∃ st, phase1Aux cfg n = some st ∧ P1Inv cfg st n := by
  intro n
  induction n with
  | zero =>
    intro _
    refine Or.inr ⟨_, rfl, ?_, ?_, ?_, ?_, ?_, rfl⟩
    · rfl
    · rfl
    · simp
    · exact List.nodup_nil
    · intro k hk
      exact absurd hk (Nat.not_lt_zero k)
  | succ n ih =>
    intro hn
    rcases ih (Nat.le_of_succ_le hn) with h1 | ⟨st1, h1, hP1⟩
    · left
      rw [phase1Aux_succ, h1]
      rfl
    · rw [phase1Aux_succ, h1]
      simpa using p1Step_inv cfg st1 n hs (Nat.lt_of_succ_le hn) hP1

theorem phase1_WInv (cfg : SelCfg) (st : SelState)
    (hs : ∀ a b, a < cfg.nGM → b < cfg.sampleBig.length → 0 < scaleFacP1 cfg a b)
    (h : phase1 cfg = some st) : WInv cfg st ∧ st.minID = none := by
  rcases phase1Aux_inv cfg hs cfg.nGM (le_refl _) with h1 | ⟨st1, h1, hP1⟩
  · rw [phase1] at h
    rw [h1] at h
    exact absurd h (by simp)
  · rw [phase1] at h
    rw [h1] at h
    obtain rfl : st1 = st := Option.some_injective _ h
    obtain ⟨hlR, hlI, hlS, hnd, hcoh, hmin⟩ := hP1
    exact ⟨⟨hlR, hlI, hlS, hnd, hcoh⟩, hmin⟩

/-! ## Claim C4 -/

/-- C4: at the end of Phase 1 and of every refinement pass (any number `n` of
passes), the selected record indices are pairwise distinct and no stored scale
factor exceeds `maxScale` — under nonnegative optimization weights and
scale factors that are strictly positive for the slots and records actually
scanned (in the source they are ratios or quotients of sums of exponentials
of the physical inputs). -/
theorem c4_selector_invariant (cfg : SelCfg) (hw0 : 0 ≤ cfg.w0) (hw1 : 0 ≤ cfg.w1)
    (hs : ∀ i j, i < cfg.nGM → j < cfg.sampleBig.length → 0 < scaleFacP1 cfg i j)
    (n : ℕ) (st : SelState)
    (h : passesN cfg n (phase1 cfg) = some st) :
    st.recID.Nodup ∧ ∀ k, k < cfg.nGM → st.scf.getD k 1 ≤ cfg.maxScale := by
  cases hp : phase1 cfg with
  | none =>
    rw [hp, passesN_none] at h
    exact absurd h (by simp)
  | some st0 =>
    obtain ⟨hW0, hm0⟩ := phase1_WInv cfg st0 hs hp
    rw [hp] at h
    rcases passesN_SInv cfg hw0 hw1 n st0 ⟨hW0, Or.inl hm0⟩ with h1 | ⟨st', h1, hS'⟩
    · rw [h1] at h
      exact absurd h (by simp)
    · rw [h1] at h
      obtain rfl : st' = st := Option.some_injective _ h
      obtain ⟨⟨_, _, _, hnd, hcoh⟩, _⟩ := hS'
      refine ⟨hnd, ?_⟩
      intro k hk
      obtain ⟨_, _, hsc, hscf⟩ := hcoh k hk
      rw [hscf]
      exact hsc

theorem phase1_cfgC4 : phase1 cfgC4 = some ⟨[[0]], [0], [1], none⟩ := by
  norm_num [phase1, phase1Aux, cfgC4, List.range_succ, p1Step, p1Pick, p1Err, minOver,
    argminIdx, scaleFacP1, bigRow, sumAt, ind1C, indTstar, p1Row, Real.exp_zero,
    Real.log_one, mul_one]

theorem passes_cfgC4 : passesN cfgC4 1 (phase1 cfgC4) = some stC4fin := by
  rw [phase1_cfgC4]
  norm_num [passesN, runPass, runPassAux, cfgC4, stC4fin, List.range_succ, slotStep,
    scanFold, devCand, devFn, p2Row, scaleFacP2, bigRow, col, lmean, lstd, Real.exp_zero,
    Real.log_one, Real.sqrt_zero, mul_one]

/-- C4 witness: a complete one-record run (Phase 1 plus one pass) reaching the
state `stC4fin`, to which the invariant theorem applies. -/
theorem c4_selector_invariant_witness :
    passesN cfgC4 1 (phase1 cfgC4) = some stC4fin ∧ stC4fin.recID.Nodup
    ∧ stC4fin.scf.getD 0 1 ≤ cfgC4.maxScale := by
  have hs : ∀ i j, i < cfgC4.nGM → j < cfgC4.sampleBig.length →
      0 < scaleFacP1 cfgC4 i j := by
    intro i j hi hj
    have hi0 : i = 0 := by
      have h1 : cfgC4.nGM = 1 := rfl
      omega
    have hj0 : j = 0 := by
      have h1 : cfgC4.sampleBig.length = 1 := rfl
      omega
    subst hi0
    subst hj0
    norm_num [scaleFacP1, cfgC4, bigRow, Real.exp_zero]
  have h := c4_selector_invariant cfgC4 (by norm_num [cfgC4]) (by norm_num [cfgC4]) hs 1
    stC4fin passes_cfgC4
  exact ⟨passes_cfgC4, h.1, h.2 0 (by norm_num [cfgC4, stC4fin])⟩

/-! ## Claim C7 -/

theorem runPass_cfgC7 : runPass cfgC7 stC7 = some stC7fin := by
  norm_num [runPass, runPassAux, cfgC7, stC7, stC7fin, List.range_succ, slotStep, scanFold,
    devCand, devFn, p2Row, scaleFacP2, bigRow, col, lmean, lstd, Real.log_one,
    Real.sqrt_zero, mul_one]

theorem errC7_before_mean :
    (errPair cfgC7 stC7.rows).1 = |Real.exp (-(1 / 2) : ℝ) - 1| * 100 := by
  norm_num [errPair, cfgC7, stC7, ind1C, indTstar, listMax, col, lmean, lstd,
    List.range_succ, Real.exp_zero]

theorem errC7_before_std : (errPair cfgC7 stC7.rows).2 = 100 := by
  norm_num [errPair, cfgC7, stC7, ind1C, indTstar, listMax, col, lmean, lstd,
    List.range_succ, Real.sqrt_zero, Real.exp_zero]

theorem errC7_after_mean :
    (errPair cfgC7 stC7fin.rows).1 = |Real.exp ((9 : ℝ) / 20) - 1| * 100 := by
  norm_num [errPair, cfgC7, stC7fin, ind1C, indTstar, listMax, col, lmean, lstd,
    List.range_succ, Real.exp_zero]

theorem exp_neg_half_lt_one : Real.exp (-(1 / 2) : ℝ) < 1 := by
  have h := Real.exp_lt_exp.2 (show (-(1 / 2) : ℝ) < 0 by norm_num)
  rwa [Real.exp_zero] at h

theorem stopEarlyC7 : stopEarly cfgC7 stC7.rows := by
  constructor
  · rw [errC7_before_mean]
    have h1 := Real.exp_pos (-(1 / 2) : ℝ)
    have h2 := exp_neg_half_lt_one
    have : |Real.exp (-(1 / 2) : ℝ) - 1| < 3 / 2 := by
      rw [abs_lt]
      constructor <;> linarith
    have htol : cfgC7.tol = 150 := rfl
    rw [htol]
    linarith
  · rw [errC7_before_std]
    have htol : cfgC7.tol = 150 := rfl
    rw [htol]
    norm_num

theorem expsum_gt_two : (2 : ℝ) < Real.exp ((9 : ℝ) / 20) + Real.exp (-(1 / 2) : ℝ) := by
  have h1 : Real.exp ((9 : ℝ) / 20) = Real.exp ((9 : ℝ) / 40) * Real.exp ((9 : ℝ) / 40) := by
    rw [← Real.exp_add]
    norm_num
  have h2 : (1 + 9 / 40 : ℝ) ≤ Real.exp ((9 : ℝ) / 40) := by
    have := Real.add_one_le_exp ((9 : ℝ) / 40)
    linarith
  have h3 : (0 : ℝ) ≤ 1 + 9 / 40 := by norm_num
  have h4 : ((1 + 9 / 40 : ℝ)) * (1 + 9 / 40) ≤ Real.exp ((9 : ℝ) / 40) * Real.exp ((9 : ℝ) / 40) :=
    mul_le_mul h2 h2 h3 (le_trans h3 h2)
  have h5 : (1 / 2 : ℝ) < Real.exp (-(1 / 2) : ℝ) := by
    have := Real.add_one_lt_exp (show (-(1 / 2) : ℝ) ≠ 0 by norm_num)
    linarith
  rw [h1]
  nlinarith

/-- C7 counterexample: for the concrete configuration `cfgC7` both convergence
errors of the selection `stC7` are below the tolerance, yet one further
refinement pass produces `stC7fin`, whose max mean percent error is strictly
larger — the claimed idempotence fails on the code. -/
theorem c7_idempotence_counterexample :
    stopEarly cfgC7 stC7.rows
    ∧ runPass cfgC7 stC7 = some stC7fin
    ∧ (errPair cfgC7 stC7.rows).1 < (errPair cfgC7 stC7fin.rows).1 := by
  refine ⟨stopEarlyC7, runPass_cfgC7, ?_⟩
  rw [errC7_before_mean, errC7_after_mean]
  have h1 := Real.exp_pos (-(1 / 2) : ℝ)
  have h2 := exp_neg_half_lt_one
  have h3 : (1 : ℝ) < Real.exp ((9 : ℝ) / 20) := by
    have h := Real.exp_lt_exp.2 (show (0 : ℝ) < (9 : ℝ) / 20 by norm_num)
    rwa [Real.exp_zero] at h
  have ha1 : |Real.exp (-(1 / 2) : ℝ) - 1| = 1 - Real.exp (-(1 / 2) : ℝ) := by
    rw [abs_of_neg (by linarith)]
    ring
  have ha2 : |Real.exp ((9 : ℝ) / 20) - 1| = Real.exp ((9 : ℝ) / 20) - 1 := by
    rw [abs_of_pos (by linarith)]
  rw [ha1, ha2]
  have := expsum_gt_two
  nlinarith

/-- C7 amended: once the selection state is coherent and its greedy objective
is below the acceptance seed, an additional refinement pass never increases
the selector's own objective `devTotal` (the max percent error metrics,
however, can increase, as the counterexample shows). -/
theorem c7_idempotence_amended (cfg : SelCfg) (st st' : SelState)
    (hw0 : 0 ≤ cfg.w0) (hw1 : 0 ≤ cfg.w1) (hW : WInv cfg st)
    (hdev : devFn cfg st.rows < 100000) (hstop : stopEarly cfg st.rows)
    (hrun : runPass cfg st = some st') :
    devFn cfg st'.rows ≤ devFn cfg st.rows := by
  obtain ⟨st2, h2, _, hle, _⟩ :=
    runPassAux_strong cfg hw0 hw1 cfg.nGM (le_refl _) st hW hdev
  rw [runPass, h2] at hrun
  obtain rfl : st2 = st' := Option.some_injective _ hrun
  exact hle

theorem winvC7 : WInv cfgC7 stC7 := by
  refine ⟨rfl, rfl, rfl, by simp [stC7], ?_⟩
  intro k hk
  have hk0 : k = 0 := by
    have : cfgC7.nGM = 1 := rfl
    omega
  subst hk0
  refine ⟨by norm_num [cfgC7, stC7], ?_, ?_, ?_⟩
  · norm_num [cfgC7, stC7, p2Row, scaleFacP2, bigRow, Real.log_one]
  · norm_num [cfgC7, stC7, scaleFacP2]
  · norm_num [cfgC7, stC7, scaleFacP2]

theorem devC7 : devFn cfgC7 stC7.rows < 100000 := by
  norm_num [devFn, cfgC7, stC7, col, lmean, lstd, List.range_succ]

/-- C7 witness for the amended theorem: the extra pass on `stC7` yields
`stC7fin` and does not increase the greedy objective. -/
theorem c7_idempotence_amended_witness :
    devFn cfgC7 stC7fin.rows ≤ devFn cfgC7 stC7.rows :=
  c7_idempotence_amended cfgC7 stC7 stC7fin (by norm_num [cfgC7]) (by norm_num [cfgC7])
    winvC7 devC7 stopEarlyC7 runPass_cfgC7

/-! ## Claim C9 -/

/-- C9: when every candidate's `devTotal` for a slot is at least the `100000`
acceptance seed, no candidate is accepted, and the slot inserts the `minID`
carried over from the previous slot — which is unbound (`none`, a `NameError`
in the source) on the very first slot of the first pass, and which can insert
a duplicate index otherwise, as the concrete instance `stC9` shows. -/
theorem c9_stale_minid :
    (∀ (cfg : SelCfg) (st : SelState) (i : ℕ),
      (∀ j, j < cfg.sampleBig.length →
        (100000 : ℝ) ≤ devCand cfg (st.rows.eraseIdx i) (st.recID.eraseIdx i) i j) →
      (st.minID = none → slotStep cfg st i = none)
      ∧ (∀ w, st.minID = some w → slotStep cfg st i =
          some ⟨(st.rows.eraseIdx i).insertIdx i (p2Row cfg i w),
                (st.recID.eraseIdx i).insertIdx i w,
                st.scf.set i (if cfg.isScaled = 1 then scaleFacP2 cfg i w else 1), some w⟩))
    ∧ slotStep cfgC9 stC9 0 = some ⟨[[], [0]], [3, 3], [1, 1], some 3⟩
    ∧ ¬ (([3, 3] : List ℕ).Nodup)
    ∧ slotStep cfgC9 stC9none 0 = none := by
  have hall9 : ∀ j, j < cfgC9.sampleBig.length →
      (100000 : ℝ) ≤ devCand cfgC9 [[0]] [3] 0 j := by
    intro j hj
    have hj0 : j = 0 := by
      have h1 : cfgC9.sampleBig.length = 1 := rfl
      omega
    subst hj0
    norm_num [devCand, devFn, cfgC9, p2Row, scaleFacP2, bigRow, col, lmean, lstd,
      List.range_succ, Real.log_one]
  refine ⟨?_, ?_, by simp, ?_⟩
  · intro cfg st i hall
    have hnoup : scanFold (devCand cfg (st.rows.eraseIdx i) (st.recID.eraseIdx i) i)
        ((100000 : ℝ), st.minID) (List.range cfg.sampleBig.length)
        = ((100000 : ℝ), st.minID) :=
      scanFold_no_update _ _ _ (fun j hj => not_lt.2 (hall j (List.mem_range.1 hj)))
    constructor
    · intro hmid
      rw [hmid] at hnoup
      simp only [slotStep, hmid]
      rw [hnoup]
    · intro w hmid
      rw [hmid] at hnoup
      simp only [slotStep, hmid]
      rw [hnoup]
  · have hnoup : scanFold (devCand cfgC9 [[0]] [3] 0)
        ((100000 : ℝ), some 3) (List.range cfgC9.sampleBig.length)
        = ((100000 : ℝ), some 3) :=
      scanFold_no_update _ _ _ (fun j hj => not_lt.2 (hall9 j (List.mem_range.1 hj)))
    simp only [slotStep, stC9, List.eraseIdx_cons_zero]
    rw [hnoup]
    norm_num [p2Row, scaleFacP2, cfgC9, bigRow]
  · have hnoup : scanFold (devCand cfgC9 [[0]] [3] 0)
        ((100000 : ℝ), none) (List.range cfgC9.sampleBig.length)
        = ((100000 : ℝ), none) :=
      scanFold_no_update _ _ _ (fun j hj => not_lt.2 (hall9 j (List.mem_range.1 hj)))
    simp only [slotStep, stC9none, List.eraseIdx_cons_zero]
    rw [hnoup]

/-- C9 witness: the stale-`minID` slot step on the concrete state `stC9`
inserts the duplicate index 3. -/
theorem c9_stale_minid_witness :
    slotStep cfgC9 stC9 0 = some ⟨[[], [0]], [3, 3], [1, 1], some 3⟩ := by
  have hall : ∀ j, j < cfgC9.sampleBig.length →
      (100000 : ℝ) ≤ devCand cfgC9 (stC9.rows.eraseIdx 0) (stC9.recID.eraseIdx 0) 0 j := by
    intro j hj
    have hj0 : j = 0 := by
      have h1 : cfgC9.sampleBig.length = 1 := rfl
      omega
    subst hj0
    norm_num [devCand, devFn, cfgC9, stC9, p2Row, scaleFacP2, bigRow, col, lmean, lstd,
      List.range_succ, Real.log_one]
  have h := (c9_stale_minid.1 cfgC9 stC9 0 hall).2 3 rfl
  rw [h]
  norm_num [stC9, p2Row, scaleFacP2, cfgC9, bigRow]

/-! ## Claim C5 -/

theorem phase1Aux_lengths (cfg : SelCfg) :
    ∀ (n : ℕ) (st : SelState), phase1Aux cfg n = some st →
      st.rows.length = n ∧ st.recID.length = n := by
  intro n
  induction n with
  | zero =>
    intro st h
    obtain rfl : (⟨[], [], List.replicate cfg.nGM 1, none⟩ : SelState) = st :=
      Option.some_injective _ h
    exact ⟨rfl, rfl⟩
  | succ n ih =>
    intro st h
    rw [phase1Aux_succ] at h
    cases hp : phase1Aux cfg n with
    | none =>
      rw [hp] at h
      exact absurd h (by simp)
    | some st1 =>
      rw [hp] at h
      simp only [Option.some_bind] at h
      obtain ⟨hr, hi⟩ := ih st1 hp
      cases hpk : p1Pick cfg st1.recID n with
      | none =>
        rw [p1Step, hpk] at h
        exact absurd h (by simp)
      | some pick =>
        rw [p1Step, hpk] at h
        obtain rfl := Option.some_injective _ h
        constructor <;> simp [hr, hi]

/-- C5: in Phase 1, candidates already selected or over the scaling cap get
error `10^6`; the pick is a minimum-error candidate; the run fails (`none`,
`sys.exit()` in the source) exactly when the minimum error is still at least
`10^6`; a row where every candidate is excluded therefore fails; and a
successful Phase 1 always returns exactly `nGM` rows, never a short list. -/
theorem c5_phase1_exclusion (cfg : SelCfg) (prev : List ℕ) (i : ℕ)
    (hn : 0 < cfg.sampleBig.length) :
    (∀ j, (j ∈ prev ∨ cfg.maxScale < scaleFacP1 cfg i j) → p1Err cfg prev i j = 1000000)
    ∧ (p1Pick cfg prev i = none
        ↔ (1000000 : ℝ) ≤ minOver (p1Err cfg prev i) cfg.sampleBig.length)
    ∧ (∀ pick, p1Pick cfg prev i = some pick →
        pick < cfg.sampleBig.length
        ∧ p1Err cfg prev i pick = minOver (p1Err cfg prev i) cfg.sampleBig.length
        ∧ pick ∉ prev ∧ scaleFacP1 cfg i pick ≤ cfg.maxScale)
    ∧ ((∀ j, j < cfg.sampleBig.length → (j ∈ prev ∨ cfg.maxScale < scaleFacP1 cfg i j)) →
        p1Pick cfg prev i = none)
    ∧ (∀ st, phase1 cfg = some st →
        st.rows.length = cfg.nGM ∧ st.recID.length = cfg.nGM) := by
  have hne : cfg.sampleBig.length ≠ 0 := Nat.pos_iff_ne_zero.1 hn
  have hexcl : ∀ j, (j ∈ prev ∨ cfg.maxScale < scaleFacP1 cfg i j) →
      p1Err cfg prev i j = 1000000 := by
    intro j hex
    rw [p1Err, if_pos hex]
  refine ⟨hexcl, ?_, ?_, ?_, ?_⟩
  · constructor
    · intro h
      by_contra hc
      rw [p1Pick, if_neg hne, if_neg hc] at h
      exact absurd h (by simp)
    · intro h
      rw [p1Pick, if_neg hne, if_pos h]
  · intro pick hp
    obtain ⟨h1, _, h3, h4, h5⟩ := p1Pick_props cfg prev i pick hp
    exact ⟨h1, h5, h3, h4⟩
  · intro hall
    have hmin : minOver (p1Err cfg prev i) cfg.sampleBig.length = 1000000 := by
      rw [minOver]
      have h0 : p1Err cfg prev i 0 = 1000000 := hexcl 0 (hall 0 hn)
      rw [h0]
      refine foldl_min_const _ _ ?_
      intro x hx
      rcases List.mem_map.1 hx with ⟨j, hj, rfl⟩
      exact hexcl j (hall j (List.mem_range.1 hj))
    rw [p1Pick, if_neg hne, if_pos (by rw [hmin])]
  · intro st h
    exact phase1Aux_lengths cfg cfg.nGM st h

/-- C5 witness: for `cfgC5` with record 0 already selected, record 0's error
is `10^6` and the failure test is exactly the min-error test. -/
theorem c5_phase1_exclusion_witness :
    p1Err cfgC5 [0] 0 0 = 1000000
    ∧ (p1Pick cfgC5 [0] 0 = none
        ↔ (1000000 : ℝ) ≤ minOver (p1Err cfgC5 [0] 0) cfgC5.sampleBig.length) := by
  have h := c5_phase1_exclusion cfgC5 [0] 0 (by norm_num [cfgC5])
  exact ⟨h.1 0 (Or.inl (by simp)), h.2.1⟩

/-! ## Claim C1 -/

/-- C1 counterexample: for the concrete configuration `cfgC1` (unconditional
mode), the Phase 2 scale factor of candidate 0 for slot 0 is `1`, computed
against the simulated row, while the spec's target-benchmarked least-squares
scalar is `2` — the claim that Phase 2 re-benchmarks against the target is
false on the code. -/
theorem c1_phase2_scale_counterexample :
    scaleFacP2 cfgC1 0 0 = 1 ∧ p2ScaleSpecUncond cfgC1 0 = 2
    ∧ scaleFacP2 cfgC1 0 0 ≠ p2ScaleSpecUncond cfgC1 0 := by
  have h2 : Real.exp (Real.log 2) = 2 := Real.exp_log (by norm_num)
  have ha : scaleFacP2 cfgC1 0 0 = 1 := by
    norm_num [scaleFacP2, cfgC1, bigRow, Real.exp_zero]
  have hb : p2ScaleSpecUncond cfgC1 0 = 2 := by
    norm_num [p2ScaleSpecUncond, cfgC1, bigRow, Real.exp_zero, h2]
  refine ⟨ha, hb, ?_⟩
  rw [ha, hb]
  norm_num

/-- C1 amended: the Phase 2 scale factor is computed by exactly the same rule
as Phase 1, against the same benchmarks — conditional mode divides the target
conditioning level by the candidate's average IM over `T*`, and unconditional
mode is the least-squares scalar against the simulated row `i`, not the
target. -/
theorem c1_phase2_scale_amended :
    (∀ (cfg : SelCfg) (i j : ℕ), scaleFacP2 cfg i j = scaleFacP1 cfg i j)
    ∧ (∀ (cfg : SelCfg) (i j : ℕ), cfg.isScaled = 1 → cfg.cond = 1 →
        scaleFacP2 cfg i j = cfg.imTstar /
          Real.exp (sumAt (bigRow cfg j) (ind1C cfg) / (cfg.Tstar.length : ℝ)))
    ∧ (∀ (cfg : SelCfg) (i j : ℕ), cfg.isScaled = 1 → cfg.cond = 0 →
        scaleFacP2 cfg i j = ((bigRow cfg j).zipWith
          (fun x y => Real.exp x * Real.exp y) (cfg.simSpec.getD i [])).sum /
          ((bigRow cfg j).map (fun x => Real.exp x ^ 2)).sum) := by
  refine ⟨fun cfg i j => rfl, ?_, ?_⟩
  · intro cfg i j h1 h2
    simp [scaleFacP2, h1, h2]
  · intro cfg i j h1 h2
    simp [scaleFacP2, h1, h2]

/-- C1 witness: the amended equalities at the concrete conditional instance
`cfgC1b` and the unconditional instance `cfgC1`. -/
theorem c1_phase2_scale_amended_witness :
    scaleFacP2 cfgC1b 0 0 = scaleFacP1 cfgC1b 0 0
    ∧ scaleFacP2 cfgC1b 0 0 = cfgC1b.imTstar /
        Real.exp (sumAt (bigRow cfgC1b 0) (ind1C cfgC1b) / (cfgC1b.Tstar.length : ℝ))
    ∧ scaleFacP2 cfgC1 0 0 = ((bigRow cfgC1 0).zipWith
        (fun x y => Real.exp x * Real.exp y) (cfgC1.simSpec.getD 0 [])).sum /
        ((bigRow cfgC1 0).map (fun x => Real.exp x ^ 2)).sum :=
  ⟨c1_phase2_scale_amended.1 cfgC1b 0 0,
   c1_phase2_scale_amended.2.1 cfgC1b 0 0 rfl rfl,
   c1_phase2_scale_amended.2.2 cfgC1 0 0 rfl rfl⟩

/-! ## Claim C10 -/

/-- C10: with an explicit epsilon list the stored conditioning level is the
recomputed `exp` of the average combined target log-mean over the conditioning
indices, ignoring the `im_Tstar` argument; with `epsilon = None` the caller's
value is stored; and the stored level is the numerator of every conditional
scale factor in both Phase 1 and Phase 2. -/
theorem c10_im_tstar_storage :
    (∀ (e : List ℝ) (imA imB : ℝ) (muln T Ts : List ℝ),
      imStored (some e) imA muln T Ts = imRecomputed muln T Ts
      ∧ imStored (some e) imA muln T Ts = imStored (some e) imB muln T Ts)
    ∧ (∀ (imA : ℝ) (muln T Ts : List ℝ), imStored none imA muln T Ts = imA)
    ∧ (∀ (cfg : SelCfg) (i j : ℕ), cfg.isScaled = 1 → cfg.cond = 1 →
        scaleFacP1 cfg i j = cfg.imTstar /
          Real.exp (sumAt (bigRow cfg j) (ind1C cfg) / (cfg.Tstar.length : ℝ))
        ∧ scaleFacP2 cfg i j = cfg.imTstar /
          Real.exp (sumAt (bigRow cfg j) (ind1C cfg) / (cfg.Tstar.length : ℝ))) := by
  refine ⟨fun e imA imB muln T Ts => ⟨rfl, rfl⟩, fun imA muln T Ts => rfl, ?_⟩
  intro cfg i j h1 h2
  constructor <;> simp [scaleFacP1, scaleFacP2, h1, h2]

/-- C10 witness: storage rule and conditional scale factor at concrete
inputs. -/
theorem c10_im_tstar_storage_witness :
    imStored (some [1]) 7 [Real.log 4] [2] [2] = imStored (some [1]) 9 [Real.log 4] [2] [2]
    ∧ imStored none 7 [Real.log 4] [2] [2] = 7
    ∧ scaleFacP1 cfgC10 0 0 = cfgC10.imTstar /
        Real.exp (sumAt (bigRow cfgC10 0) (ind1C cfgC10) / (cfgC10.Tstar.length : ℝ)) :=
  ⟨(c10_im_tstar_storage.1 [1] 7 9 [Real.log 4] [2] [2]).2,
   c10_im_tstar_storage.2.1 7 [Real.log 4] [2] [2],
   (c10_im_tstar_storage.2.2 cfgC10 0 0 rfl rfl).1⟩

/-! ## Claim C8 -/

/-- C8 amended: the correlation model is symmetric and equals 1 on the
diagonal; the claimed range bound `ρ ∈ [-1, 1]` fails (see the
counterexample), so only these two parts survive. -/
theorem c8_correlation_contract_amended :
    (∀ T1 T2 : ℝ, Baker_Jayaram_2008 T1 T2 = Baker_Jayaram_2008 T2 T1)
    ∧ (∀ t : ℝ, Baker_Jayaram_2008 t t = 1) :=
  ⟨Baker_Jayaram_2008_symm, Baker_Jayaram_2008_self⟩

/-- C8 counterexample: at the strictly positive period pair
`(0.2, 0.2 * exp 10)` the correlation model returns a value strictly greater
than 1, so its result does not always lie in `[-1, 1]`. -/
theorem c8_correlation_contract_counterexample :
    0 < (0.2 : ℝ) ∧ 0 < (0.2 : ℝ) * Real.exp 10
    ∧ 1 < Baker_Jayaram_2008 0.2 (0.2 * Real.exp 10) := by
  have hexp : (1 : ℝ) ≤ Real.exp 10 := Real.one_le_exp (by norm_num)
  have hpos : (0 : ℝ) < 0.2 * Real.exp 10 := by positivity
  refine ⟨by norm_num, hpos, ?_⟩
  have hmin : min (0.2 : ℝ) (0.2 * Real.exp 10) = 0.2 := min_eq_left (by nlinarith)
  have hmax : max (0.2 : ℝ) (0.2 * Real.exp 10) = 0.2 * Real.exp 10 :=
    max_eq_right (by nlinarith)
  have hgt : (0.109 : ℝ) < 0.2 * Real.exp 10 := by nlinarith
  simp only [Baker_Jayaram_2008, hmin, hmax]
  rw [if_neg (not_le.2 hgt), if_pos (show (0.109 : ℝ) < 0.2 by norm_num)]
  have hmax2 : max (0.2 : ℝ) 0.109 = 0.2 := max_eq_left (by norm_num)
  have hdiv : (0.2 : ℝ) * Real.exp 10 / 0.2 = Real.exp 10 :=
    mul_div_cancel_left₀ (Real.exp 10) (by norm_num)
  rw [hmax2, hdiv, Real.log_exp]
  have harg : (10 : ℝ) * 0.366 = 3.66 := by norm_num
  rw [harg, Real.cos_pi_div_two_sub]
  have hpi1 : Real.pi < 3.15 := Real.pi_lt_d2
  have hpi2 : (3.141592 : ℝ) < Real.pi := Real.pi_gt_d6
  have hs : Real.sin (3.66 : ℝ) < 0 := by
    have h1 : (0 : ℝ) < 3.66 - Real.pi := by linarith
    have h2 : (3.66 : ℝ) - Real.pi < Real.pi := by linarith
    have h3 := Real.sin_pos_of_pos_of_lt_pi h1 h2
    have h4 := Real.sin_sub_pi (3.66 : ℝ)
    linarith [h4 ▸ h3]
  linarith

/-! ## Claim C2 -/

theorem ind1C_cfgC2 : ind1C cfgC2 = [1] := by
  have h1 : decide ((1 : ℝ) = 2) = false := decide_eq_false (by norm_num)
  have h2 : decide ((2 : ℝ) = 2) = true := decide_eq_true rfl
  simp [ind1C, indTstar, cfgC2, List.findIdx_cons, h1, h2]

theorem ind2C_cfgC2 : ind2C cfgC2 = [0] := by
  have h1 : decide (¬ (1 : ℝ) = 2) = true := decide_eq_true (by norm_num)
  simp [ind2C, cfgC2, List.findIdx_cons, h1]

theorem errPairC2 : errPair cfgC2 rowsC2 = (0, 0) := by
  have hcond : cfgC2.cond = 1 ∧ (ind1C cfgC2).length = 1 :=
    ⟨rfl, by rw [ind1C_cfgC2]; rfl⟩
  rw [errPair, if_pos hcond, ind2C_cfgC2]
  norm_num [cfgC2, rowsC2, col, lmean, lstd, listMax, Real.exp_zero, Real.sqrt_one]

theorem stopEarlyC2 : stopEarly cfgC2 rowsC2 := by
  constructor
  · rw [errPairC2]
    norm_num [cfgC2]
  · rw [errPairC2]
    norm_num [cfgC2]

theorem specMeanErrC2 : specMeanErr cfgC2 rowsC2 = 100 := by
  have hlen : cfgC2.muLn.length = 3 := rfl
  have d0 : decide (¬ cfgC2.Tgrid.getD 0 0 ∈ cfgC2.Tstar) = true :=
    decide_eq_true (by norm_num [cfgC2])
  have d1 : decide (¬ cfgC2.Tgrid.getD 1 0 ∈ cfgC2.Tstar) = false :=
    decide_eq_false (by norm_num [cfgC2])
  have d2 : decide (¬ cfgC2.Tgrid.getD 2 0 ∈ cfgC2.Tstar) = true :=
    decide_eq_true (by norm_num [cfgC2])
  have h2 : Real.exp (Real.log 2) = 2 := Real.exp_log (by norm_num)
  rw [specMeanErr, hlen]
  rw [show List.range 3 = [0, 1, 2] from by simp [List.range_succ]]
  rw [List.filter_cons, List.filter_cons, List.filter_cons, List.filter_nil]
  rw [d0, d1, d2]
  norm_num [cfgC2, rowsC2, col, lmean, listMax, Real.exp_zero, h2, max_def]

/-- C2 (code bug): on the concrete selection `rowsC2`, the code's convergence
pair is `(0, 0)` — because `ind2` holds only the FIRST grid index whose period
differs from `T*` — so the early-stopping test passes and the loop breaks,
although the max mean percent error over all non-conditioning periods is 100,
far above the tolerance 50. -/
theorem c2_convergence_check_code_bug :
    (errPair cfgC2 rowsC2).1 = 0 ∧ (errPair cfgC2 rowsC2).2 = 0
    ∧ stopEarly cfgC2 rowsC2
    ∧ specMeanErr cfgC2 rowsC2 = 100
    ∧ ¬ specMeanErr cfgC2 rowsC2 < cfgC2.tol := by
  refine ⟨by rw [errPairC2], by rw [errPairC2], stopEarlyC2, specMeanErrC2, ?_⟩
  rw [specMeanErrC2]
  norm_num [cfgC2]

/-! ## Claim C3 -/

theorem getD_mapIdx_of_lt {α β : Type*} (f : ℕ → α → β) (l : List α) (i : ℕ) (d : β) (d' : α)
    (h : i < l.length) : (l.mapIdx f).getD i d = f i (l.getD i d') := by
  rw [List.getD_eq_getElem _ _ (by simpa [List.length_mapIdx] using h),
    List.getD_eq_getElem _ _ h, List.getElem_mapIdx]

theorem zero_matrix_entry (M : List (List ℝ)) (i j : ℕ) :
    ((M.map (fun row => row.map (fun _ => (0 : ℝ)))).getD i []).getD j 0 = 0 := by
  by_cases hi : i < M.length
  · rw [getD_map_of_lt _ M i [] [] hi]
    by_cases hj : j < (M.getD i []).length
    · rw [getD_map_of_lt _ _ j 0 0 hj]
    · rw [List.getD_eq_default _ _ (by simpa using le_of_not_lt hj)]
  · have h1 : (M.map (fun row => row.map (fun _ => (0 : ℝ)))).length ≤ i := by
      simpa using le_of_not_lt hi
    rw [List.getD_eq_default _ _ h1]
    rfl

theorem zip_zero_cov (i : ℕ) (c : ℝ) :
    ∀ (Z : List (List (List ℝ))) (B : List (List ℝ)) (C : List ℝ),
      Z.length = B.length →
      (∀ M ∈ Z, ((M.getD i []).getD i 0) = 0) →
      (List.zipWith (fun p w => ((p.1.getD i []).getD i 0 + (p.2.getD i 0 - c) ^ 2) * w)
          ((Z.zip B)) C).sum
      = (List.zipWith (fun mn w => (mn.getD i 0 - c) ^ 2 * w) B C).sum := by
  intro Z
  induction Z with
  | nil =>
    intro B C hl _
    obtain rfl : B = [] := (List.length_eq_zero.1 hl.symm)
    rfl
  | cons M Ms ih =>
    intro B C hl hz
    cases B with
    | nil => simp at hl
    | cons b bs =>
      cases C with
      | nil => rfl
      | cons w ws =>
        rw [List.zip_cons_cons, List.zipWith_cons_cons, List.zipWith_cons_cons,
          List.sum_cons, List.sum_cons, hz M (List.mem_cons_self M Ms), zero_add,
          ih bs ws (by simpa using hl) (fun M' hM' => hz M' (List.mem_cons_of_mem M hM'))]

theorem covDiagIdx_zeroed (covs : List (List (List ℝ))) (means : List (List ℝ))
    (H : List ℝ) (hlen : covs.length = means.length) (i : ℕ) :
    covDiagIdx (covAfterUseVar 0 covs) means H i = betweenVar means H i := by
  rw [covAfterUseVar, if_pos rfl, covDiagIdx, betweenVar]
  refine zip_zero_cov i (tgtMeanFinIdx means H i) _ means H (by simpa using hlen) ?_
  intro M hM
  rcases List.mem_map.1 hM with ⟨M0, _, rfl⟩
  exact zero_matrix_entry M0 i i

/-- C3 counterexample: a single scenario with covariance `[[4]]` and
`useVar = 0` yields a final covariance entry of `1e-10` (the clamp floor), not
`0`, and a target sigma of `1e-5`, not `0`. -/
theorem c3_useVar_zero_counterexample :
    ((TgtCovFin 0 covsC3 meansC3 HC3).getD 0 []).getD 0 0 = 1e-10
    ∧ ¬ ((TgtCovFin 0 covsC3 meansC3 HC3).getD 0 []).getD 0 0 = 0
    ∧ (TgtSigmaFin 0 covsC3 meansC3 HC3).getD 0 0 = 1e-5
    ∧ ¬ (TgtSigmaFin 0 covsC3 meansC3 HC3).getD 0 0 = 0 := by
  have hcov : TgtCovFin 0 covsC3 meansC3 HC3 = [[1e-10]] := by
    norm_num [TgtCovFin, covAfterUseVar, covsC3, meansC3, HC3, covDiagIdx, tgtMeanFinIdx,
      List.mapIdx_cons]
  have hsig : TgtSigmaFin 0 covsC3 meansC3 HC3 = [1e-5] := by
    rw [TgtSigmaFin, hcov]
    have h : (1e-10 : ℝ) = (1e-5) ^ 2 := by norm_num
    simp [List.mapIdx_cons, h, Real.sqrt_sq (show (0:ℝ) ≤ 1e-5 by norm_num)]
  rw [hcov, hsig]
  norm_num

/-- C3 amended: with `useVar = 0` every per-scenario covariance is zeroed, but
the final matrix is then clamped: each off-diagonal entry equals `1e-10`, each
diagonal entry is the hazard-weighted between-scenario mean variance (clamped
to `1e-10` when its magnitude is below the floor), and `sigma_ln` is the
square root of that diagonal — so the final covariance and `sigma_ln` are
never all zeros. -/
theorem c3_useVar_zero_amended (covs : List (List (List ℝ))) (means : List (List ℝ))
    (H : List ℝ) (hlen : covs.length = means.length) (i j : ℕ)
    (hi : i < (covs.getD 0 []).length) (hj : j < ((covs.getD 0 []).getD i []).length) :
    ((TgtCovFin 0 covs means H).getD i []).getD j 0
      = (if i = j then
          (if |betweenVar means H i| < 1e-10 then (1e-10 : ℝ) else betweenVar means H i)
         else 1e-10)
    ∧ (TgtSigmaFin 0 covs means H).getD i 0
      = Real.sqrt (((TgtCovFin 0 covs means H).getD i []).getD i 0) := by
  have hcne : covs ≠ [] := by
    intro hc
    rw [hc] at hi
    simp at hi
  have hc0 : 0 < covs.length := List.length_pos.2 hcne
  have hM : (covAfterUseVar 0 covs).getD 0 []
      = (covs.getD 0 []).map (fun row => row.map (fun _ => (0 : ℝ))) := by
    rw [covAfterUseVar, if_pos rfl]
    exact getD_map_of_lt _ covs 0 [] [] hc0
  have hdiag := covDiagIdx_zeroed covs means H hlen
  have hrowlen : i < ((covAfterUseVar 0 covs).getD 0 []).length := by
    rw [hM]
    simpa using hi
  have hcolen : j < (((covAfterUseVar 0 covs).getD 0 []).getD i []).length := by
    rw [hM, getD_map_of_lt _ _ i [] [] hi]
    simpa using hj
  have hrow : ((covAfterUseVar 0 covs).getD 0 []).getD i []
      = ((covs.getD 0 []).getD i []).map (fun _ => (0 : ℝ)) := by
    rw [hM]
    exact getD_map_of_lt _ _ i [] [] hi
  constructor
  · rw [TgtCovFin]
    rw [getD_map_of_lt _ _ i [] []
        (by simpa [List.length_mapIdx] using hrowlen),
      getD_mapIdx_of_lt _ _ i [] [] hrowlen]
    have hjlen : j < ((((covAfterUseVar 0 covs).getD 0 []).getD i []).set i
        (covDiagIdx (covAfterUseVar 0 covs) means H i)).length := by
      simpa [List.length_set] using hcolen
    rw [getD_map_of_lt _ _ j 0 0 hjlen]
    by_cases hij : i = j
    · subst hij
      rw [getD_set_self _ _ _ 0 hcolen, hdiag, if_pos rfl]
    · rw [getD_set_ne _ _ _ _ 0 hij, if_neg hij, hrow,
        getD_map_of_lt _ _ j 0 0 (by simpa using hj)]
      norm_num
  · rw [TgtSigmaFin]
    refine getD_mapIdx_of_lt _ _ i 0 [] ?_
    simp only [TgtCovFin]
    simpa [List.length_mapIdx] using hrowlen

/-- C3 amended witness: the amended description evaluated at the concrete
single-scenario instance. -/
theorem c3_useVar_zero_amended_witness :
    ((TgtCovFin 0 covsC3 meansC3 HC3).getD 0 []).getD 0 0
      = (if (0 : ℕ) = 0 then
          (if |betweenVar meansC3 HC3 0| < 1e-10 then (1e-10 : ℝ) else betweenVar meansC3 HC3 0)
         else 1e-10)
    ∧ (TgtSigmaFin 0 covsC3 meansC3 HC3).getD 0 0
      = Real.sqrt (((TgtCovFin 0 covsC3 meansC3 HC3).getD 0 []).getD 0 0) :=
  c3_useVar_zero_amended covsC3 meansC3 HC3 rfl 0 0 (by norm_num [covsC3])
    (by norm_num [covsC3])

/-! ## Claim C6 -/

theorem sigmaConv_eq (sg : ℝ → ℝ) (t : ℝ) : sigmaConv sg t = sg t := by
  have h : Real.exp (sg t) ^ 2 * (2 / (1 + 1)) = Real.exp (sg t) ^ 2 := by norm_num
  rw [sigmaConv, h, Real.sqrt_sq (le_of_lt (Real.exp_pos _)), Real.log_exp]

theorem Sa_avg_var_raw (sg : ℝ → ℝ) (T : List ℝ) :
    Sa_avg_var sg T = (1 / (T.length : ℝ)) ^ 2 *
      (T.map (fun ti =>
        (T.map (fun tj => Baker_Jayaram_2008 ti tj * sg ti * sg tj)).sum)).sum := by
  rw [Sa_avg_var]
  congr 1
  refine congrArg List.sum (List.map_congr_left ?_)
  intro ti _
  refine congrArg List.sum (List.map_congr_left ?_)
  intro tj _
  rw [sigmaConv_eq, sigmaConv_eq]

theorem scen_roundtrip (mu sg : ℝ → ℝ) (Tstar : List ℝ) (im : ℝ)
    (hV : 0 < Sa_avg_var sg Tstar) (hne : Tstar ≠ []) :
    (Tstar.map (scenCondMeanAt mu sg Tstar im)).sum
      = (Tstar.length : ℝ) * Real.log im := by
  have hn0 : (0 : ℝ) < (Tstar.length : ℝ) := by
    exact_mod_cast List.length_pos.2 hne
  have hσ : 0 < Sa_avg_sigma sg Tstar := Real.sqrt_pos.2 hV
  have hσσ : Sa_avg_sigma sg Tstar * Sa_avg_sigma sg Tstar = Sa_avg_var sg Tstar :=
    Real.mul_self_sqrt (le_of_lt hV)
  have hsplit : (Tstar.map (scenCondMeanAt mu sg Tstar im)).sum
      = (Tstar.map mu).sum
        + (Tstar.map (fun t =>
            rho_AvgSA_SA sg t Tstar * rupEps mu sg Tstar im * sg t)).sum := by
    have h0 : Tstar.map (scenCondMeanAt mu sg Tstar im)
        = Tstar.map (fun t =>
            mu t + rho_AvgSA_SA sg t Tstar * rupEps mu sg Tstar im * sg t) :=
      List.map_congr_left (fun t _ => rfl)
    rw [h0, List.sum_map_add]
  have hpull : (Tstar.map (fun t =>
        rho_AvgSA_SA sg t Tstar * rupEps mu sg Tstar im * sg t)).sum
      = rupEps mu sg Tstar im
        * (Tstar.map (fun t => rho_AvgSA_SA sg t Tstar * sg t)).sum := by
    rw [← List.sum_map_mul_left]
    refine congrArg List.sum (List.map_congr_left ?_)
    intro t _
    ring
  have hrho : (Tstar.map (fun t => rho_AvgSA_SA sg t Tstar * sg t)).sum
      = (Tstar.length : ℝ) * Sa_avg_sigma sg Tstar := by
    have h1 : ∀ t ∈ Tstar, rho_AvgSA_SA sg t Tstar * sg t
        = ((Tstar.map (fun tj => Baker_Jayaram_2008 t tj * sg tj)).sum * sg t)
          / ((Tstar.length : ℝ) * Sa_avg_sigma sg Tstar) := by
      intro t _
      rw [rho_AvgSA_SA]
      ring
    rw [List.map_congr_left h1, list_sum_map_div]
    have h2 : (Tstar.map (fun t =>
        (Tstar.map (fun tj => Baker_Jayaram_2008 t tj * sg tj)).sum * sg t)).sum
        = ((Tstar.length : ℝ)) ^ 2 * Sa_avg_var sg Tstar := by
      rw [Sa_avg_var_raw]
      have h3 : ∀ t ∈ Tstar,
          (Tstar.map (fun tj => Baker_Jayaram_2008 t tj * sg tj)).sum * sg t
          = (Tstar.map (fun tj => Baker_Jayaram_2008 t tj * sg t * sg tj)).sum := by
        intro t _
        rw [← List.sum_map_mul_right]
        refine congrArg List.sum (List.map_congr_left ?_)
        intro tj _
        ring
      rw [List.map_congr_left h3]
      field_simp
    rw [h2, ← hσσ]
    field_simp
    ring
  rw [hsplit, hpull, hrho, rupEps]
  have hmean : Sa_avg_mean mu Tstar = (1 / (Tstar.length : ℝ)) * (Tstar.map mu).sum := rfl
  rw [hmean]
  field_simp
  ring

theorem sum_map_zipWith_swap (Tstar : List ℝ) (F : ((ℝ → ℝ) × (ℝ → ℝ)) → ℝ → ℝ) :
    ∀ (scs : List ((ℝ → ℝ) × (ℝ → ℝ))) (ws : List ℝ),
      (Tstar.map (fun t => (List.zipWith (fun sc w => w * F sc t) scs ws).sum)).sum
      = (List.zipWith (fun sc w => w * (Tstar.map (F sc)).sum) scs ws).sum := by
  intro scs
  induction scs with
  | nil =>
    intro ws
    simp
  | cons sc scs ih =>
    intro ws
    cases ws with
    | nil => simp
    | cons w ws =>
      rw [List.zipWith_cons_cons, List.sum_cons]
      have h1 : Tstar.map (fun t =>
            (List.zipWith (fun sc w => w * F sc t) (sc :: scs) (w :: ws)).sum)
          = Tstar.map (fun t =>
            w * F sc t + (List.zipWith (fun sc w => w * F sc t) scs ws).sum) := by
        refine List.map_congr_left ?_
        intro t _
        rw [List.zipWith_cons_cons, List.sum_cons]
      rw [h1, List.sum_map_add, List.sum_map_mul_left, ih ws]

theorem zipWith_sum_const (c : ℝ) :
    ∀ (scs : List ((ℝ → ℝ) × (ℝ → ℝ))) (ws : List ℝ)
      (f : ((ℝ → ℝ) × (ℝ → ℝ)) → ℝ),
      scs.length = ws.length → (∀ sc ∈ scs, f sc = c) →
      (List.zipWith (fun sc w => w * f sc) scs ws).sum = ws.sum * c := by
  intro scs
  induction scs with
  | nil =>
    intro ws f hl _
    obtain rfl : ws = [] := List.length_eq_zero.1 hl.symm
    simp
  | cons sc scs ih =>
    intro ws f hl hall
    cases ws with
    | nil => simp at hl
    | cons w ws =>
      rw [List.zipWith_cons_cons, List.sum_cons, List.sum_cons,
        hall sc (List.mem_cons_self sc scs),
        ih ws f (by simpa using hl) (fun sc' h => hall sc' (List.mem_cons_of_mem sc h))]
      ring

/-- C6: for any number of scenarios with hazard weights summing to 1, positive
average-IM variance per scenario, conditioning periods present in the grid and
back-calculated epsilon, the exponential of the average combined target
log-mean over the conditioning indices reproduces the target intensity level
exactly. -/
theorem c6_conditional_mean_roundtrip (scs : List ((ℝ → ℝ) × (ℝ → ℝ))) (ws : List ℝ)
    (Tstar T : List ℝ) (im : ℝ)
    (hw : ws.sum = 1) (hlen : scs.length = ws.length) (him : 0 < im)
    (hne : Tstar ≠ []) (hsub : ∀ t ∈ Tstar, t ∈ T)
    (hV : ∀ sc ∈ scs, 0 < Sa_avg_var sc.2 Tstar) :
    imRecomputed (muLnVec scs ws Tstar im T) T Tstar = im := by
  have hn0 : (0 : ℝ) < (Tstar.length : ℝ) := by
    exact_mod_cast List.length_pos.2 hne
  have hpick : ∀ t ∈ Tstar,
      (muLnVec scs ws Tstar im T).getD (T.findIdx (fun x => decide (x = t))) 0
      = TgtMeanFinAt scs ws Tstar im t := by
    intro t ht
    have hfi : T.findIdx (fun x => decide (x = t)) < T.length :=
      List.findIdx_lt_length.2 ⟨t, hsub t ht, decide_eq_true rfl⟩
    have hval : T.getD (T.findIdx (fun x => decide (x = t))) 0 = t := by
      rw [List.getD_eq_getElem _ _ hfi]
      exact of_decide_eq_true (@List.findIdx_getElem ℝ (fun x => decide (x = t)) T hfi)
    rw [muLnVec, getD_map_of_lt _ T _ 0 0 hfi, hval]
  have hsum : sumAt (muLnVec scs ws Tstar im T) (indTstar T Tstar)
      = (Tstar.map (TgtMeanFinAt scs ws Tstar im)).sum := by
    rw [sumAt, indTstar, List.map_map]
    exact congrArg List.sum (List.map_congr_left (fun t ht => hpick t ht))
  have hswap : (Tstar.map (TgtMeanFinAt scs ws Tstar im)).sum
      = (List.zipWith (fun sc w =>
          w * (Tstar.map (scenCondMeanAt sc.1 sc.2 Tstar im)).sum) scs ws).sum := by
    have h1 : Tstar.map (TgtMeanFinAt scs ws Tstar im)
        = Tstar.map (fun t => (List.zipWith
            (fun sc w => w * scenCondMeanAt sc.1 sc.2 Tstar im t) scs ws).sum) :=
      List.map_congr_left (fun t _ => rfl)
    rw [h1, sum_map_zipWith_swap Tstar (fun sc t => scenCondMeanAt sc.1 sc.2 Tstar im t) scs ws]
  have hconst : (List.zipWith (fun sc w =>
        w * (Tstar.map (scenCondMeanAt sc.1 sc.2 Tstar im)).sum) scs ws).sum
      = ws.sum * ((Tstar.length : ℝ) * Real.log im) := by
    refine zipWith_sum_const _ scs ws _ hlen ?_
    intro sc hsc
    exact scen_roundtrip sc.1 sc.2 Tstar im (hV sc hsc) hne
  rw [imRecomputed, hsum, hswap, hconst, hw, one_mul,
    mul_div_cancel_left₀ _ (ne_of_gt hn0), Real.exp_log him]

/-- C6 witness: a single scenario with zero GMPE mean and unit GMPE sigma on
the one-period grid `[1]` with target level `im = 1`. -/
theorem c6_conditional_mean_roundtrip_witness :
    imRecomputed (muLnVec [(fun _ => (0 : ℝ), fun _ => (1 : ℝ))] [1] [1] 1 [1]) [1] [1]
      = 1 := by
  refine c6_conditional_mean_roundtrip [(fun _ => (0 : ℝ), fun _ => (1 : ℝ))] [1] [1] [1] 1
    (by simp) rfl (by norm_num) (by simp) (fun t ht => ht) ?_
  intro sc hsc
  have hsc2 : sc = (fun _ => (0 : ℝ), fun _ => (1 : ℝ)) := by simpa using hsc
  subst hsc2
  rw [Sa_avg_var_raw]
  norm_num [Baker_Jayaram_2008_self]

end EzGM
